import Mathlib

/-!
# Verification of the incentive-scheme runtime (`runtime/schemes/runScheme.js`)

A shallow embedding of the scheme-execution engine.  Conventions of the
embedding:

* JavaScript scalar values are modelled by `JsValue` (`null` stands for both
  JS `null` and `undefined`/absent; decimal.js numbers and JS numbers are
  modelled as exact rationals `ℚ` — decimal.js is configured with 20
  significant digits and all values exercised here are exactly
  representable).
* Records (parsed CSV rows) are association lists from physical field name
  to `JsValue`; property access `record[f]` yields `JsValue.null` when the
  field is absent.  `safeGet`'s dot-path splitting is not modelled (all
  the engine's field names are flat CSV column names).
* A thrown JS exception is modelled by `Option`/`Except` failure.
* `console.log`/`console.warn` output, ISO timestamps in log entries and
  the `_originalIndex`/`_recordId` bookkeeping fields are not modelled;
  log entries keep their rule type, rule id and agent id.
* String operations are implemented character-by-character (ASCII case
  folding, as exercised by the engine's inputs) so that every definition
  evaluates inside the kernel.
-/

/-- JS scalar value as it appears in records, rule definitions and
intermediate computations.  `null` models both JS `null` and `undefined`;
`num` models a JS number or a decimal.js `Decimal` as an exact rational. -/
inductive JsValue where
  | null : JsValue
  | str : String → JsValue
  | num : ℚ → JsValue
deriving DecidableEq

/-- The engine's "null/undefined/empty-string" test used by
`evaluateCondition` (source line 132 / 144). -/
def isNullish : JsValue → Bool
  | .null => true
  | .str s => s = ""
  | .num _ => false

/-- JS truthiness-based fallback `x || d` restricted to the values the
engine meets (`null`, `undefined`, `''`, `0` are falsy). -/
def jsOr (v d : JsValue) : JsValue :=
  match v with
  | .null => d
  | .str s => if s = "" then d else v
  | .num q => if q = 0 then d else v

/-- A parsed CSV row: an association list from physical field name to value. -/
abbrev Record := List (String × JsValue)

/-- Property access `record[field]`: `JsValue.null` models an absent field
(JS `undefined`). -/
def getField (r : Record) (f : String) : JsValue :=
  match r.find? (fun p => p.1 = f) with
  | some p => p.2
  | none => .null

/-- `safeGet(record, field, default)`: the default applies when the field
is absent. -/
def getFieldD (r : Record) (f : String) (d : JsValue) : JsValue :=
  match getField r f with
  | .null => d
  | v => v

/-! ## Character-level string helpers (JS semantics, kernel-evaluable) -/

/-- Decimal digit value of a character, if it is a digit. -/
def digitVal (c : Char) : Option ℕ :=
  if c = '0' then some 0 else if c = '1' then some 1 else if c = '2' then some 2
  else if c = '3' then some 3 else if c = '4' then some 4 else if c = '5' then some 5
  else if c = '6' then some 6 else if c = '7' then some 7 else if c = '8' then some 8
  else if c = '9' then some 9 else none

/-- Whitespace for JS `String.prototype.trim`. -/
def isJsSpace (c : Char) : Bool :=
  c = ' ' || c = '\t' || c = '\n' || c = '\r' || c = '\x0b' || c = '\x0c'

/-- `String.prototype.trim`. -/
def jsTrim (s : String) : String :=
  String.mk (((s.data.dropWhile isJsSpace).reverse.dropWhile isJsSpace).reverse)

/-- ASCII lower-casing of one character (`String.prototype.toLowerCase`
restricted to the ASCII data the engine processes). -/
def lowerChar (c : Char) : Char :=
  if 65 ≤ c.toNat ∧ c.toNat ≤ 90 then Char.ofNat (c.toNat + 32) else c

/-- ASCII upper-casing of one character. -/
def upperChar (c : Char) : Char :=
  if 97 ≤ c.toNat ∧ c.toNat ≤ 122 then Char.ofNat (c.toNat - 32) else c

/-- `String.prototype.toLowerCase`. -/
def jsToLower (s : String) : String := String.mk (s.data.map lowerChar)

/-- `String.prototype.toUpperCase`. -/
def jsToUpper (s : String) : String := String.mk (s.data.map upperChar)

/-- `String.prototype.startsWith`. -/
def jsStartsWith (s pre : String) : Bool := pre.data.isPrefixOf s.data

/-- `String.prototype.endsWith`. -/
def jsEndsWith (s post : String) : Bool := post.data.reverse.isPrefixOf s.data.reverse

/-- Infix test on character lists. -/
def listInfix (sub : List Char) : List Char → Bool
  | [] => sub.isPrefixOf ([] : List Char)
  | c :: rest => sub.isPrefixOf (c :: rest) || listInfix sub rest

/-- `String.prototype.includes`. -/
def jsIncludes (s sub : String) : Bool := listInfix sub.data s.data

/-! ## Decimal-string parsing and rendering -/

/-- Numeric value of a digit list (most significant first). -/
def digitsVal (l : List Char) : ℕ :=
  l.foldl (fun acc c => acc * 10 + ((digitVal c).getD 0)) 0

/-- Split a character list into its leading run of digits and the rest. -/
def spanDigits : List Char → List Char × List Char
  | [] => ([], [])
  | c :: rest =>
    if (digitVal c).isSome then
      let p := spanDigits rest
      (c :: p.1, p.2)
    else ([], c :: rest)

/-- All characters are digits. -/
def allDigits : List Char → Bool
  | [] => true
  | c :: rest => (digitVal c).isSome && allDigits rest

/-- Parse an unsigned decimal literal `\d+(\.\d*)?|\.\d+` (the plain-decimal
fragment of the `decimal.js` constructor grammar; exponent, hex/octal/binary
and `Infinity`/`NaN` forms are outside the model — none of the engine's data
uses them and the claims under audit do not exercise them). -/
def parseUnsignedDecimal (l : List Char) : Option ℚ :=
  let intPart := (spanDigits l).1
  match (spanDigits l).2 with
  | [] => if intPart = [] then none else some ((digitsVal intPart : ℕ) : ℚ)
  | '.' :: fracPart =>
    if allDigits fracPart then
      if intPart = [] ∧ fracPart = [] then none
      else some (((digitsVal intPart : ℕ) : ℚ) +
                 ((digitsVal fracPart : ℕ) : ℚ) / ((10 : ℚ) ^ fracPart.length))
    else none
  | _ => none

/-- `new Decimal(string)`: `none` models the thrown `[DecimalError]`. -/
def parseDecimalString (s : String) : Option ℚ :=
  match s.data with
  | '-' :: rest => (parseUnsignedDecimal rest).map (fun q => -q)
  | l => parseUnsignedDecimal l

/-- `new Decimal(value)` on an arbitrary JS value; `none` models a throw
(`new Decimal(undefined)` and malformed strings throw). -/
def jsDecimalOpt : JsValue → Option ℚ
  | .num q => some q
  | .str s => parseDecimalString s
  | .null => none

/-- Multiplicity of a prime factor, fuel-based. -/
def factorCount (p : ℕ) : ℕ → ℕ → ℕ
  | 0, _ => 0
  | fuel + 1, n => if 1 < p ∧ n ≠ 0 ∧ n % p = 0 then 1 + factorCount p fuel (n / p) else 0

/-- Render a rational with a power-of-ten denominator the way JS renders the
corresponding number (`String(x)`): minimal decimal expansion, no exponent
notation.  Every number the engine meets is such a rational; other rationals
fall back to a fraction rendering that never matches any literal or date
pattern the engine compares against. -/
def ratToDecimalString (q : ℚ) : String :=
  let d := q.den
  let a := factorCount 2 d d
  let b := factorCount 5 d d
  let sign := if q.num < 0 then "-" else ""
  if 2 ^ a * 5 ^ b = d then
    let k := max a b
    let scaled : ℕ := q.num.natAbs * 10 ^ k / d
    if k = 0 then sign ++ toString scaled
    else
      let ds := (toString scaled).data
      let ds := if ds.length ≤ k then List.replicate (k + 1 - ds.length) '0' ++ ds else ds
      sign ++ String.mk (ds.take (ds.length - k)) ++ "." ++ String.mk (ds.drop (ds.length - k))
  else
    sign ++ toString q.num.natAbs ++ "/" ++ toString d

/-- `String(value)` for the values the engine stringifies. -/
def jsToString : JsValue → String
  | .null => "undefined"
  | .str s => s
  | .num q => ratToDecimalString q

/-- decimal.js `ROUND_HALF_UP` (round half away from zero) to an integer. -/
def roundHalfAwayFromZero (q : ℚ) : ℤ :=
  if 0 ≤ q then ⌊q + 1 / 2⌋ else -⌊(-q) + 1 / 2⌋

/-- `formatDecimal` (source line 103): `Decimal.toFixed(precision)` under the
run's `ROUND_HALF_UP` rounding mode.  The model carries exact rationals, so
the non-`Decimal` conversion branch is the identity. -/
def formatDecimal (q : ℚ) (precision : ℕ) : String :=
  let n := roundHalfAwayFromZero (q * (10 : ℚ) ^ precision)
  let sign := if n < 0 then "-" else ""
  let m := n.natAbs
  if precision = 0 then sign ++ toString m
  else
    let ip := m / 10 ^ precision
    let fp := m % 10 ^ precision
    let fs := (toString fp).data
    let fs := List.replicate (precision - fs.length) '0' ++ fs
    sign ++ toString ip ++ "." ++ String.mk fs

/-! ## Dates -/

/-- A calendar date as the engine compares them: UTC year/month/day. -/
structure UTCDate where
  year : ℕ
  month : ℕ
  day : ℕ
deriving DecidableEq

/-- Gregorian leap year. -/
def isLeapYear (y : ℕ) : Bool := y % 4 = 0 && (y % 100 ≠ 0 || y % 400 = 0)

/-- Days in a month. -/
def daysInMonth (y m : ℕ) : ℕ :=
  if m = 2 then (if isLeapYear y then 29 else 28)
  else if m = 4 ∨ m = 6 ∨ m = 9 ∨ m = 11 then 30 else 31

/-- `parseDate` (source line 49): `YYYY-MM-DD` strictly, then `new
Date(s+"T00:00:00Z")`, which is invalid (→ `null`) when the components are
out of range. -/
def parseDate (s : String) : Option UTCDate :=
  match s.data with
  | [y1, y2, y3, y4, h1, m1, m2, h2, d1, d2] =>
    if h1 = '-' ∧ h2 = '-' then
      match digitVal y1, digitVal y2, digitVal y3, digitVal y4,
            digitVal m1, digitVal m2, digitVal d1, digitVal d2 with
      | some a, some b, some c, some d, some e, some f, some g, some h =>
        let y := 1000 * a + 100 * b + 10 * c + d
        let mo := 10 * e + f
        let dy := 10 * g + h
        if 1 ≤ mo ∧ mo ≤ 12 ∧ 1 ≤ dy ∧ dy ≤ daysInMonth y mo then
          some ⟨y, mo, dy⟩
        else none
      | _, _, _, _, _, _, _, _ => none
    else none
  | _ => none

/-- `compareDates` (source line 69) on two valid dates: `-1`, `0` or `1` by
UTC year, then month, then day.  (The `NaN` branch for invalid `Date`
objects cannot arise here: every `UTCDate` comes from a successful
`parseDate`.) -/
def compareDates (d1 d2 : UTCDate) : ℤ :=
  if d1.year < d2.year then -1
  else if d2.year < d1.year then 1
  else if d1.month < d2.month then -1
  else if d2.month < d1.month then 1
  else if d1.day < d2.day then -1
  else if d2.day < d1.day then 1
  else 0

/-- `parseDate(value)` without a `String(...)` coercion (as called in
`findManager`): non-strings fail `parseDate`'s `typeof` check. -/
def parseDateValueStrict : JsValue → Option UTCDate
  | .str s => parseDate s
  | _ => none

/-- `parseDate(String(value))` (as called in the base-data date filter).
A JS number never stringifies to a `YYYY-MM-DD` shape, so numbers fail. -/
def parseDateValueCoerced (v : JsValue) : Option UTCDate :=
  match v with
  | .null => none
  | v => parseDate (jsToString v)

/-! ## `evaluateCondition` (source line 125) -/

/-- `evaluateCondition(recordValue, operator, ruleValue, dataType)`:
null-handling first, then typed dispatch on `dataType` (`"Number"`,
`"Date"`, default case-insensitive `String`).  A parse failure inside the
`try` (invalid decimal or date) yields `false`.  Unknown operators yield
`false`. -/
def evaluateCondition (recordValue : JsValue) (operator : String)
    (ruleValue : JsValue) (dataType : String) : Bool :=
  if isNullish recordValue then
    operator = "=" && isNullish ruleValue
  else if isNullish ruleValue then
    operator = "!="
  else if dataType = "Number" then
    match jsDecimalOpt recordValue, jsDecimalOpt ruleValue with
    | some rv, some rl =>
      if operator = "=" then decide (rv = rl)
      else if operator = "!=" then decide (rv ≠ rl)
      else if operator = ">" then decide (rl < rv)
      else if operator = ">=" then decide (rl ≤ rv)
      else if operator = "<" then decide (rv < rl)
      else if operator = "<=" then decide (rv ≤ rl)
      else false
    | _, _ => false
  else if dataType = "Date" then
    match parseDate (jsToString recordValue), parseDate (jsToString ruleValue) with
    | some rv, some rl =>
      let c := compareDates rv rl
      if operator = "=" then decide (c = 0)
      else if operator = "!=" then decide (c ≠ 0)
      else if operator = ">" then decide (c = 1)
      else if operator = ">=" then decide (0 ≤ c)
      else if operator = "<" then decide (c = -1)
      else if operator = "<=" then decide (c ≤ 0)
      else false
    | _, _ => false
  else
    let rv := jsToLower (jsTrim (jsToString recordValue))
    let rl := jsToLower (jsTrim (jsToString ruleValue))
    if operator = "=" then decide (rv = rl)
    else if operator = "!=" then decide (rv ≠ rl)
    else if operator = "CONTAINS" then jsIncludes rv rl
    else if operator = "STARTSWITH" then jsStartsWith rv rl
    else if operator = "ENDSWITH" then jsEndsWith rv rl
    else if operator = "NOT CONTAINS" then !jsIncludes rv rl
    else false

/-! ## `calculateMarginalTieredPayout` (source line 314) -/

/-- A payout tier.  `tfrom`/`tto` model the source's `from`/`to` (`from` is a
Lean keyword); `tto = none` models an unbounded tier (`to: null`/absent).
`isPercentage = none` models an absent flag (the source resolves it with
`tier.isPercentage !== false`, i.e. the default is `true`). -/
structure Tier where
  tfrom : ℚ
  tto : Option ℚ
  rate : ℚ
  isPercentage : Option Bool
deriving DecidableEq

/-- `tier.isPercentage !== false` (source line 338): default `true`. -/
def Tier.isPct (t : Tier) : Bool := t.isPercentage ≠ some false

/-- Tier ordering used by the defensive sort (source line 323):
`(a, b) => (Number(a.from) || 0) - (Number(b.from) || 0)`. -/
def tierLE (a b : Tier) : Prop := a.tfrom ≤ b.tfrom

instance : DecidableRel tierLE := fun a b => inferInstanceAs (Decidable (a.tfrom ≤ b.tfrom))

instance : IsTotal Tier tierLE := ⟨fun a b => le_total a.tfrom b.tfrom⟩

instance : IsTrans Tier tierLE := ⟨fun _ _ _ h1 h2 => le_trans h1 h2⟩

/-- The defensive ascending sort by `from` (JS `Array.prototype.sort` is
stable; so is insertion sort). -/
def sortTiers (tiers : List Tier) : List Tier := tiers.insertionSort tierLE

/-- `Decimal.min(tierTo, amount)` where an absent/`null` `to` is
`Decimal.Infinity` (source lines 333-336 and 351). -/
def tierEnd (amount : ℚ) (t : Tier) : ℚ :=
  match t.tto with
  | none => amount
  | some v => min v amount

/-- The tier loop of `calculateMarginalTieredPayout` (source lines 330-376),
over the already-sorted tiers, carrying `totalPayout` and `amountProcessed`.
The two `break`s (amount at or below the tier's start / amount fully
processed) and the post-credit `break` are kept exactly. -/
def payoutLoop (amount : ℚ) : List Tier → ℚ → ℚ → ℚ
  | [], total, _ => total
  | t :: ts, total, processed =>
    if amount ≤ t.tfrom ∨ amount ≤ processed then total
    else
      let effectiveTierStart := max t.tfrom processed
      let amountInTier := tierEnd amount t - effectiveTierStart
      if 0 < amountInTier then
        let tierPayout := if t.isPct then amountInTier * t.rate / 100 else amountInTier * t.rate
        if amount ≤ tierEnd amount t then total + tierPayout
        else payoutLoop amount ts (total + tierPayout) (tierEnd amount t)
      else payoutLoop amount ts total processed

/-- `calculateMarginalTieredPayout(amount, tiers)` (source line 314): sort
the tiers ascending by `from`, then accumulate the marginal slices.  An
empty tier list yields `0` (the non-`Decimal`/non-array guards are
type-level in the model). -/
def calculateMarginalTieredPayout (amount : ℚ) (tiers : List Tier) : ℚ :=
  if tiers.isEmpty then 0
  else payoutLoop amount (sortTiers tiers) 0 0

/-- One tier step of the claimed marginal/bracket semantics, written from
the specification's words: credit the slice
`max(tier.from, amountAlreadyProcessed)` to `min(tier.to ?? +∞, amount)`
at the tier's rate — divided by 100 when `isPercentage` (default `true`),
as a per-unit multiplier otherwise — only when the slice is positive, in
which case `amountAlreadyProcessed` advances to the slice's end. -/
def marginalSpecStep (amount : ℚ) (st : ℚ × ℚ) (t : Tier) : ℚ × ℚ :=
  let effectiveStart := max t.tfrom st.2
  let effectiveEnd := tierEnd amount t
  if effectiveStart < effectiveEnd then
    (st.1 + (if t.isPct then (effectiveEnd - effectiveStart) * t.rate / 100
             else (effectiveEnd - effectiveStart) * t.rate),
     effectiveEnd)
  else st

/-- The claimed payout semantics: process the tiers in ascending order of
`from`, crediting every positive slice; no early exit. -/
def computeMarginalPayoutSpec (amount : ℚ) (tiers : List Tier) : ℚ :=
  ((sortTiers tiers).foldl (marginalSpecStep amount) (0, 0)).1

/-- The tier's effective end never exceeds the credited amount. -/
theorem tierEnd_le_amount (amount : ℚ) (t : Tier) : tierEnd amount t ≤ amount := by
  unfold tierEnd
  cases t.tto with
  | none => exact le_refl _
  | some v => exact min_le_right _ _

/-- A tier whose start is at or beyond the amount, or at or beyond the
already-processed prefix, contributes nothing in the claimed semantics. -/
theorem marginalSpecStep_noop (amount : ℚ) (t : Tier) (st : ℚ × ℚ)
    (h : amount ≤ t.tfrom ∨ amount ≤ st.2) : marginalSpecStep amount st t = st := by
  unfold marginalSpecStep
  have hle : tierEnd amount t ≤ max t.tfrom st.2 := by
    rcases h with h | h
    · exact le_trans (le_trans (tierEnd_le_amount amount t) h) (le_max_left _ _)
    · exact le_trans (le_trans (tierEnd_le_amount amount t) h) (le_max_right _ _)
  rw [if_neg (not_lt.mpr hle)]

/-- Folding the claimed semantics over a run of tiers that all start at or
beyond the amount (or with the amount already fully processed) changes
nothing. -/
theorem foldl_marginalSpecStep_noop (amount : ℚ) :
    ∀ (ts : List Tier) (st : ℚ × ℚ),
      (∀ t ∈ ts, amount ≤ t.tfrom ∨ amount ≤ st.2) →
      ts.foldl (marginalSpecStep amount) st = st := by
  intro ts
  induction ts with
  | nil => intro st _; rfl
  | cons t ts ih =>
    intro st h
    rw [List.foldl_cons, marginalSpecStep_noop amount t st (h t (List.mem_cons_self t ts))]
    exact ih st (fun t' ht' => h t' (List.mem_cons_of_mem t ht'))

/-- On a tier list sorted ascending by `from`, the source's loop with its
early `break`s computes exactly the break-free left fold of the claimed
marginal semantics. -/
theorem payoutLoop_eq_foldl (amount : ℚ) :
    ∀ (ts : List Tier), ts.Pairwise tierLE →
      ∀ (total processed : ℚ),
        payoutLoop amount ts total processed =
          (ts.foldl (marginalSpecStep amount) (total, processed)).1 := by
  intro ts
  induction ts with
  | nil => intro _ total processed; rfl
  | cons t ts ih =>
    intro hpw total processed
    rw [List.pairwise_cons] at hpw
    obtain ⟨hall, htail⟩ := hpw
    rw [List.foldl_cons]
    by_cases hbr : amount ≤ t.tfrom ∨ amount ≤ processed
    · rw [payoutLoop, if_pos hbr,
        marginalSpecStep_noop amount t (total, processed) hbr,
        foldl_marginalSpecStep_noop amount ts (total, processed)
          (fun t' ht' => by
            rcases hbr with h | h
            · exact Or.inl (le_trans h (hall t' ht'))
            · exact Or.inr h)]
    · by_cases hslice : 0 < tierEnd amount t - max t.tfrom processed
      · have hlt : max t.tfrom processed < tierEnd amount t := by linarith
        have hstep : marginalSpecStep amount (total, processed) t =
            (total + (if t.isPct then (tierEnd amount t - max t.tfrom processed) * t.rate / 100
                      else (tierEnd amount t - max t.tfrom processed) * t.rate),
             tierEnd amount t) := by
          unfold marginalSpecStep
          rw [if_pos hlt]
        rw [hstep]
        by_cases hend : amount ≤ tierEnd amount t
        · rw [payoutLoop, if_neg hbr]
          simp only [hslice, if_true, hend]
          rw [foldl_marginalSpecStep_noop amount ts _
            (fun t' _ => Or.inr hend)]
        · rw [payoutLoop, if_neg hbr]
          simp only [hslice, if_true, hend, if_false]
          exact ih htail _ _
      · have hstep : marginalSpecStep amount (total, processed) t = (total, processed) := by
          unfold marginalSpecStep
          rw [if_neg (by intro hc; exact hslice (by linarith))]
        rw [hstep, payoutLoop, if_neg hbr]
        simp only [hslice, if_false]
        exact ih htail total processed

/-- The example tier table from the claim:
`[(0, 25000, 3%), (25000, 125000, 7%), (125000, unbounded, 10%)]`. -/
def c1ExampleTiers : List Tier :=
  [⟨0, some 25000, 3, some true⟩, ⟨25000, some 125000, 7, some true⟩,
   ⟨125000, none, 10, some true⟩]

/-- C1: `calculateMarginalTieredPayout` implements marginal/bracket
semantics — for every credited amount and tier table it equals the
break-free fold that processes the tiers in ascending order of `from` and
credits each positive slice `max(tier.from, processed)…min(tier.to ?? ∞,
amount)` at the tier's rate (÷100 when `isPercentage`, default true; per
unit otherwise) — and on the example tiers with amount 200000 it returns
exactly 15250.00. -/
theorem c1_marginal_tiered_payout :
    (∀ (amount : ℚ) (tiers : List Tier),
       calculateMarginalTieredPayout amount tiers = computeMarginalPayoutSpec amount tiers) ∧
    calculateMarginalTieredPayout 200000 c1ExampleTiers = 15250 := by
  constructor
  · intro amount tiers
    unfold calculateMarginalTieredPayout computeMarginalPayoutSpec
    by_cases he : tiers.isEmpty
    · rw [if_pos he]
      cases tiers with
      | nil => rfl
      | cons t ts => simp [List.isEmpty] at he
    · rw [if_neg he]
      exact payoutLoop_eq_foldl amount (sortTiers tiers) (List.sorted_insertionSort tierLE tiers) 0 0
  · norm_num +decide [calculateMarginalTieredPayout, payoutLoop, tierEnd, sortTiers, c1ExampleTiers,
      List.insertionSort, List.orderedInsert, tierLE, Tier.isPct]

/-- `compareDates` is zero on identical dates. -/
theorem compareDates_self (d : UTCDate) : compareDates d d = 0 := by
  simp [compareDates]

/-- Well-typedness of a value for a rule's `dataType`: for `Number` the
value parses as a decimal, for `Date` its stringification parses as a
`YYYY-MM-DD` date, and any other `dataType` (the `String` default) accepts
everything. -/
def wellTypedFor (v : JsValue) (dataType : String) : Bool :=
  if dataType = "Number" then (jsDecimalOpt v).isSome
  else if dataType = "Date" then (parseDate (jsToString v)).isSome
  else true

/-- C5: for every operator and dataType, a null/undefined/empty-string
record value evaluates to true exactly when the operator is `=` and the
rule value is also null/undefined/empty-string; and a non-nullish record
value against a nullish rule value evaluates to true exactly for `!=`. -/
theorem c5_null_handling :
    ∀ (recordValue ruleValue : JsValue) (operator dataType : String),
      (isNullish recordValue = true →
        (evaluateCondition recordValue operator ruleValue dataType = true ↔
          operator = "=" ∧ isNullish ruleValue = true)) ∧
      (isNullish recordValue = false → isNullish ruleValue = true →
        (evaluateCondition recordValue operator ruleValue dataType = true ↔
          operator = "!=")) := by
  intro recordValue ruleValue operator dataType
  constructor
  · intro h1
    simp [evaluateCondition, h1]
  · intro h1 h2
    simp [evaluateCondition, h1, h2]

/-- C5 witness at concrete inputs. -/
theorem c5_null_handling_witness :
    evaluateCondition .null "=" (.str "") "Number" = true ∧
    evaluateCondition (.str "x") "!=" .null "String" = true := by
  constructor
  · exact ((c5_null_handling .null (.str "") "=" "Number").1 (by decide)).2 ⟨rfl, by decide⟩
  · exact ((c5_null_handling (.str "x") .null "!=" "String").2 (by decide) (by decide)).2 rfl

/-- C9 counterexample: for the non-null inputs `"abc"` and `"1"` under
dataType `Number`, the record value fails to parse, so both `=` and `!=`
evaluate to `false` — `!=` is *not* the boolean negation of `=` there. -/
theorem c9_counterexample :
    isNullish (.str "abc") = false ∧ isNullish (.str "1") = false ∧
    evaluateCondition (.str "abc") "!=" (.str "1") "Number" ≠
      (!evaluateCondition (.str "abc") "=" (.str "1") "Number") := by
  decide

/-- C9 (amended): `=` is reflexive on non-null well-typed values of every
dataType, and `!=` is the exact boolean negation of `=` on non-null inputs
that are well-typed for the dataType (for ill-typed values both return
`false`). -/
theorem c9_eq_ne_wellTyped :
    ∀ (v w : JsValue) (dataType : String),
      isNullish v = false → isNullish w = false →
      wellTypedFor v dataType = true → wellTypedFor w dataType = true →
      evaluateCondition v "=" v dataType = true ∧
      evaluateCondition v "!=" w dataType = (!evaluateCondition v "=" w dataType) := by
  intro v w dataType hv hw hwtv hwtw
  by_cases hN : dataType = "Number"
  · simp only [wellTypedFor, hN, if_pos, if_true] at hwtv hwtw
    obtain ⟨qv, hqv⟩ := Option.isSome_iff_exists.mp hwtv
    obtain ⟨qw, hqw⟩ := Option.isSome_iff_exists.mp hwtw
    constructor
    · simp [evaluateCondition, hv, hN, hqv]
    · simp [evaluateCondition, hv, hw, hN, hqv, hqw, decide_not]
  · by_cases hD : dataType = "Date"
    · simp only [wellTypedFor, hN, hD, if_false, if_true, if_pos] at hwtv hwtw
      obtain ⟨dv, hdv⟩ := Option.isSome_iff_exists.mp hwtv
      obtain ⟨dw, hdw⟩ := Option.isSome_iff_exists.mp hwtw
      constructor
      · simp [evaluateCondition, hv, hN, hD, hdv, compareDates_self]
      · simp [evaluateCondition, hv, hw, hN, hD, hdv, hdw, decide_not]
    · constructor
      · simp [evaluateCondition, hv, hN, hD]
      · simp [evaluateCondition, hv, hw, hN, hD, decide_not]

/-- C9 witness at concrete well-typed inputs. -/
theorem c9_eq_ne_wellTyped_witness :
    evaluateCondition (.str "2") "=" (.str "2") "Number" = true ∧
    evaluateCondition (.str "2") "!=" (.str "3") "Number" =
      (!evaluateCondition (.str "2") "=" (.str "3") "Number") :=
  c9_eq_ne_wellTyped (.str "2") (.str "3") "Number"
    (by decide) (by decide) (by decide) (by decide)

/-! ## Field mappings (`kpiConfig` → field map, source lines 488-542) -/

/-- A resolved field-map entry: `{ sourceField, dataType, evaluationLevel,
aggregation, sourceFile }`.  The empty string models an absent (`undefined`)
attribute. -/
structure FieldInfo where
  sourceField : String
  dataType : String
  evaluationLevel : String
  aggregation : String
  sourceFile : String
deriving DecidableEq

/-- One `kpiConfig` entry as authored in the scheme (any of the five
sections); the empty string models an absent attribute. -/
structure KpiField where
  name : String
  sourceField : String
  dataType : String
  evaluationLevel : String
  aggregation : String
  sourceFile : String
deriving DecidableEq

/-- The scheme's `baseMapping`. -/
structure BaseMapping where
  sourceFile : String
  agentField : String
  amountField : String
  transactionDateField : String
deriving DecidableEq

/-- The field map `{ logicalName ↦ FieldInfo }`.  A JS object keyed by
logical name; modelled as an association list where the *first* match wins,
so prepending models overwriting. -/
abbrev FieldMap := List (String × FieldInfo)

/-- `fieldMap[name]`. -/
def lookupField (m : FieldMap) (name : String) : Option FieldInfo :=
  (m.find? (fun p => p.1 = name)).map (fun p => p.2)

/-- The `forEach` over the five `kpiConfig` sections (source lines 497-515):
entries with a truthy `name` and `sourceField` are registered (later entries
shadow earlier ones), with defaults `dataType = 'String'`,
`evaluationLevel = 'Per Record'`, `aggregation = 'NotApplicable'`;
incomplete entries are skipped with a warning. -/
def buildFieldMapCore : List KpiField → FieldMap → FieldMap
  | [], acc => acc
  | f :: rest, acc =>
    if f.name ≠ "" ∧ f.sourceField ≠ "" then
      buildFieldMapCore rest
        ((f.name,
          { sourceField := f.sourceField,
            dataType := if f.dataType = "" then "String" else f.dataType,
            evaluationLevel := if f.evaluationLevel = "" then "Per Record" else f.evaluationLevel,
            aggregation := if f.aggregation = "" then "NotApplicable" else f.aggregation,
            sourceFile := f.sourceFile }) :: acc)
    else buildFieldMapCore rest acc

/-- The implicit default mappings for `Agent` / `Amount` /
`TransactionDate` derived from `baseMapping` when not explicitly configured
(source lines 519-539).  The defaults carry no `aggregation` (modelled as
`""`). -/
def withDefaultMappings (m : FieldMap) (bm : BaseMapping) : FieldMap :=
  let m := if (lookupField m "Agent").isSome then m
    else ("Agent", ⟨bm.agentField, "String", "Per Record", "", bm.sourceFile⟩) :: m
  let m := if (lookupField m "Amount").isSome then m
    else ("Amount", ⟨bm.amountField, "Number", "Per Record", "", bm.sourceFile⟩) :: m
  if (lookupField m "TransactionDate").isSome then m
  else ("TransactionDate", ⟨bm.transactionDateField, "Date", "Per Record", "", bm.sourceFile⟩) :: m

/-- Build the run's field map from the concatenated `kpiConfig` sections
(in source order: baseData, qualificationFields, adjustmentFields,
exclusionFields, creditFields) plus the base-mapping defaults. -/
def buildFieldMap (fields : List KpiField) (bm : BaseMapping) : FieldMap :=
  withDefaultMappings (buildFieldMapCore fields []) bm

/-! ## Record selection (source lines 549-618) -/

/-- A qualification / exclusion rule `{ id, field, operator, value }`. -/
structure QualRule where
  id : String
  field : String
  operator : String
  value : JsValue
deriving DecidableEq

/-- The date filter on one base record (source lines 555-575): the record's
transaction-date field must be present and non-empty, parse as
`YYYY-MM-DD`, and satisfy `schemeStart ≤ date ≤ runDate` under the UTC
year/month/day comparison. -/
def recordInDateRange (transactionDateField : String) (schemeStart runDate : UTCDate)
    (record : Record) : Bool :=
  let recordDateStr := getField record transactionDateField
  if isNullish recordDateStr then false
  else
    match parseDateValueCoerced recordDateStr with
    | none => false
    | some recordDate =>
      decide (0 ≤ compareDates recordDate schemeStart) &&
      decide (compareDates recordDate runDate ≤ 0)

/-- The filter selecting per-record qualification rules (source lines
581-590): the rule's field resolves, with `evaluationLevel = 'Per Record'`
and `sourceFile` equal to the base data file. -/
def isPerRecordBaseRule (fieldMap : FieldMap) (baseDataFile : String) (rule : QualRule) : Bool :=
  match lookupField fieldMap rule.field with
  | some fi => fi.evaluationLevel = "Per Record" && fi.sourceFile = baseDataFile
  | none => false

/-- One qualification rule applied to one record (source lines 593-613);
a rule whose mapped `sourceField` is empty is skipped (treated as passed),
mirroring the `continue`. -/
def passesRecordQualRule (fieldMap : FieldMap) (record : Record) (rule : QualRule) : Bool :=
  match lookupField fieldMap rule.field with
  | some fi =>
    if fi.sourceField = "" then true
    else evaluateCondition (getField record fi.sourceField) rule.operator rule.value fi.dataType
  | none => true

/-- Stages 1-2 of `runScheme` record selection: the date filter followed by
the per-record qualification filter (all applicable rules must pass).
Neither stage emits any log entry — both are pure filters in the source as
well (nothing is pushed to any log collection there). -/
def selectRecords (fieldMap : FieldMap) (baseDataFile transactionDateField : String)
    (schemeStart runDate : UTCDate) (qualificationRules : List QualRule)
    (records : List Record) : List Record :=
  (records.filter (recordInDateRange transactionDateField schemeStart runDate)).filter
    (fun record =>
      (qualificationRules.filter (isPerRecordBaseRule fieldMap baseDataFile)).all
        (passesRecordQualRule fieldMap record))

/-- Reduce `passesRecordQualRule` when the rule's field resolves. -/
theorem passesRecordQualRule_some (m : FieldMap) (r : Record) (rule : QualRule)
    (fi : FieldInfo) (h : lookupField m rule.field = some fi) :
    passesRecordQualRule m r rule =
      if fi.sourceField = "" then true
      else evaluateCondition (getField r fi.sourceField) rule.operator rule.value fi.dataType := by
  unfold passesRecordQualRule
  rw [h]

/-- Reduce `passesRecordQualRule` when the rule's field does not resolve. -/
theorem passesRecordQualRule_none (m : FieldMap) (r : Record) (rule : QualRule)
    (h : lookupField m rule.field = none) :
    passesRecordQualRule m r rule = true := by
  unfold passesRecordQualRule
  rw [h]

/-- Reduce `isPerRecordBaseRule` when the rule's field resolves. -/
theorem isPerRecordBaseRule_some (m : FieldMap) (b : String) (rule : QualRule)
    (fi : FieldInfo) (h : lookupField m rule.field = some fi) :
    isPerRecordBaseRule m b rule =
      (decide (fi.evaluationLevel = "Per Record") && decide (fi.sourceFile = b)) := by
  unfold isPerRecordBaseRule
  rw [h]

/-- The date filter holds iff the record's transaction-date value parses
and lies in the closed run window. -/
theorem recordInDateRange_iff (transactionDateField : String)
    (schemeStart runDate : UTCDate) (record : Record) :
    recordInDateRange transactionDateField schemeStart runDate record = true ↔
      ∃ d, parseDateValueCoerced (getField record transactionDateField) = some d ∧
        0 ≤ compareDates d schemeStart ∧ compareDates d runDate ≤ 0 := by
  unfold recordInDateRange
  by_cases hn : isNullish (getField record transactionDateField) = true
  · rw [if_pos hn]
    constructor
    · intro h
      exact absurd h (by simp)
    · rintro ⟨d, hd, _⟩
      exfalso
      cases hv : getField record transactionDateField with
      | null => rw [hv] at hd; simp [parseDateValueCoerced] at hd
      | str s =>
        rw [hv] at hn hd
        have hs : s = "" := by simpa [isNullish] using hn
        subst hs
        simp only [parseDateValueCoerced, jsToString] at hd
        rw [show parseDate "" = none from by decide] at hd
        exact Option.noConfusion hd
      | num q => rw [hv] at hn; simp [isNullish] at hn
  · rw [if_neg hn]
    cases hp : parseDateValueCoerced (getField record transactionDateField) with
    | none =>
      simp only [hp]
      constructor
      · intro h
        exact absurd h (by simp)
      · rintro ⟨d, hd, _⟩
        exact Option.noConfusion hd
    | some d =>
      simp only [hp]
      constructor
      · intro h
        obtain ⟨h1, h2⟩ := Bool.and_eq_true_iff.mp h
        exact ⟨d, rfl, of_decide_eq_true h1, of_decide_eq_true h2⟩
      · rintro ⟨d', hd', h1, h2⟩
        obtain rfl : d = d' := Option.some_inj.mp hd'
        exact Bool.and_eq_true_iff.mpr ⟨decide_eq_true h1, decide_eq_true h2⟩

/-- C2: a base record survives selection iff its resolved transaction-date
field parses and lies in the closed window `[scheme.effectiveFrom,
runAsOf]` (UTC year/month/day comparison) *and* it passes every
qualification rule whose resolved field has evaluation level `Per Record`
and source file equal to the base dataset.  (Both stages are pure filters:
no log entry is produced for dropped records.)  The hypothesis — every
registered field-map entry has a non-empty `sourceField` — is an invariant
of `buildFieldMap`, which only registers entries with truthy
`sourceField`s. -/
theorem c2_record_selection (fieldMap : FieldMap) (baseDataFile transactionDateField : String)
    (schemeStart runDate : UTCDate) (rules : List QualRule) (records : List Record)
    (hwf : ∀ name fi, lookupField fieldMap name = some fi → fi.sourceField ≠ "")
    (r : Record) :
    r ∈ selectRecords fieldMap baseDataFile transactionDateField schemeStart runDate rules records ↔
      (r ∈ records ∧
       (∃ d, parseDateValueCoerced (getField r transactionDateField) = some d ∧
          0 ≤ compareDates d schemeStart ∧ compareDates d runDate ≤ 0) ∧
       (∀ rule ∈ rules, ∀ fi, lookupField fieldMap rule.field = some fi →
          fi.evaluationLevel = "Per Record" → fi.sourceFile = baseDataFile →
          evaluateCondition (getField r fi.sourceField) rule.operator rule.value fi.dataType = true)) := by
  unfold selectRecords
  rw [List.mem_filter, List.mem_filter]
  constructor
  · rintro ⟨⟨hmem, hdate⟩, hqual⟩
    refine ⟨hmem, (recordInDateRange_iff _ _ _ _).mp hdate, ?_⟩
    intro rule hrule fi hfi hlevel hfile
    have happ : isPerRecordBaseRule fieldMap baseDataFile rule = true := by
      rw [isPerRecordBaseRule_some fieldMap baseDataFile rule fi hfi]
      exact Bool.and_eq_true_iff.mpr ⟨decide_eq_true hlevel, decide_eq_true hfile⟩
    have hpass := List.all_eq_true.mp hqual rule (List.mem_filter.mpr ⟨hrule, happ⟩)
    rw [passesRecordQualRule_some fieldMap r rule fi hfi,
      if_neg (hwf rule.field fi hfi)] at hpass
    exact hpass
  · rintro ⟨hmem, hdate, hqual⟩
    refine ⟨⟨hmem, (recordInDateRange_iff _ _ _ _).mpr hdate⟩, ?_⟩
    rw [List.all_eq_true]
    intro rule hrule
    rw [List.mem_filter] at hrule
    obtain ⟨hrule, happ⟩ := hrule
    cases hfi : lookupField fieldMap rule.field with
    | none => exact passesRecordQualRule_none fieldMap r rule hfi
    | some fi =>
      rw [isPerRecordBaseRule_some fieldMap baseDataFile rule fi hfi] at happ
      obtain ⟨hlevel, hfile⟩ := Bool.and_eq_true_iff.mp happ
      rw [passesRecordQualRule_some fieldMap r rule fi hfi,
        if_neg (hwf rule.field fi hfi)]
      exact hqual rule hrule fi hfi (of_decide_eq_true hlevel) (of_decide_eq_true hfile)

/-- Any field map whose entries all carry non-empty `sourceField`s
satisfies the lookup-level invariant assumed by `c2_record_selection`. -/
theorem lookupField_sourceField_ne (m : FieldMap)
    (hm : ∀ p ∈ m, p.2.sourceField ≠ "") :
    ∀ name fi, lookupField m name = some fi → fi.sourceField ≠ "" := by
  intro name fi h
  unfold lookupField at h
  cases hf : m.find? (fun p => p.1 = name) with
  | none => rw [hf] at h; exact Option.noConfusion h
  | some p =>
    rw [hf, Option.map_some'] at h
    rw [← Option.some_inj.mp h]
    exact hm p (List.mem_of_find?_eq_some hf)

/-- Concrete field map for the C2 witness scenario. -/
def c2FieldMap : FieldMap :=
  [("SalesOrg", ⟨"Sales Organization", "String", "Per Record", "NotApplicable", "base.csv"⟩)]

/-- Concrete per-record qualification rule for the C2 witness scenario. -/
def c2Rules : List QualRule := [⟨"q1", "SalesOrg", "=", .str "1810"⟩]

/-- Record dated on the run-as-of day (must be selected). -/
def c2RecIncluded : Record :=
  [("Document Date", .str "2024-12-31"), ("Sales Organization", .str "1810")]

/-- Record dated the day after the run-as-of day (must be dropped). -/
def c2RecExcluded : Record :=
  [("Document Date", .str "2025-01-01"), ("Sales Organization", .str "1810")]

/-- Base dataset for the C2 witness scenario. -/
def c2Records : List Record := [c2RecIncluded, c2RecExcluded]

/-- C2 witness: with run-as-of `2024-12-31`, a qualifying record dated
`2024-12-31` is selected and one dated `2025-01-01` is dropped. -/
theorem c2_record_selection_witness :
    c2RecIncluded ∈ selectRecords c2FieldMap "base.csv" "Document Date"
      ⟨2024, 12, 1⟩ ⟨2024, 12, 31⟩ c2Rules c2Records ∧
    c2RecExcluded ∉ selectRecords c2FieldMap "base.csv" "Document Date"
      ⟨2024, 12, 1⟩ ⟨2024, 12, 31⟩ c2Rules c2Records := by
  have hwf : ∀ name fi, lookupField c2FieldMap name = some fi → fi.sourceField ≠ "" :=
    lookupField_sourceField_ne c2FieldMap (by decide)
  constructor
  · refine (c2_record_selection c2FieldMap "base.csv" "Document Date"
      ⟨2024, 12, 1⟩ ⟨2024, 12, 31⟩ c2Rules c2Records hwf c2RecIncluded).mpr
      ⟨by decide, ⟨⟨2024, 12, 31⟩, by decide, by decide, by decide⟩, ?_⟩
    intro rule hrule fi hfi _ _
    have hr : rule = ⟨"q1", "SalesOrg", "=", .str "1810"⟩ := List.mem_singleton.mp hrule
    subst hr
    rw [show lookupField c2FieldMap "SalesOrg" =
      some ⟨"Sales Organization", "String", "Per Record", "NotApplicable", "base.csv"⟩
      from by decide] at hfi
    rw [← Option.some_inj.mp hfi]
    decide
  · intro hmem
    obtain ⟨_, ⟨d, hd, _, hle⟩, _⟩ := (c2_record_selection c2FieldMap "base.csv" "Document Date"
      ⟨2024, 12, 1⟩ ⟨2024, 12, 31⟩ c2Rules c2Records hwf c2RecExcluded).mp hmem
    rw [show parseDateValueCoerced (getField c2RecExcluded "Document Date") =
      some ⟨2025, 1, 1⟩ from by decide] at hd
    rw [← Option.some_inj.mp hd] at hle
    exact absurd hle (by decide)

/-! ## Record-level processing: exclusion and adjustment (source lines 653-820) -/

/-- A rule-hit log entry; the model keeps the fields the claims inspect
(`ruleType`, `ruleId`, `agentId`).  Messages, `recordId` and ISO timestamps
are not modelled. -/
structure LogEntry where
  ruleType : String
  ruleId : String
  agentId : String
deriving DecidableEq

/-- The condition part of an adjustment rule. -/
structure AdjCondition where
  field : String
  operator : String
  value : JsValue
deriving DecidableEq

/-- The action part of an adjustment rule: `target` is `'Rate'` or
`'Amount'`, `type` is `'percentage'` or `'fixed'`, `value` is the raw
configured value (converted with `new Decimal(adj.value || 0)` at
application time). -/
structure AdjAction where
  target : String
  type : String
  value : JsValue
deriving DecidableEq

/-- An adjustment rule `{ id, condition, adjustment }`. -/
structure AdjRule where
  id : String
  condition : AdjCondition
  adjustment : AdjAction
deriving DecidableEq

/-- `new Decimal(adj.value || 0)` (source line 724): falsy values become 0;
a malformed string value throws (`none`). -/
def adjValueOpt (v : JsValue) : Option ℚ :=
  jsDecimalOpt (jsOr v (.num 0))

/-- An exclusion rule is applicable to the base record and fires
(source lines 665-680): its field resolves with `sourceFile` equal to the
base file and its condition evaluates true on the record. -/
def exclusionRuleFires (fieldMap : FieldMap) (baseDataFile : String) (record : Record)
    (rule : QualRule) : Bool :=
  match lookupField fieldMap rule.field with
  | some fi =>
    fi.sourceFile = baseDataFile &&
    evaluateCondition (getField record fi.sourceField) rule.operator rule.value fi.dataType
  | none => false

/-- First-match exclusion scan (source lines 664-693): the first applicable
rule whose condition evaluates true, if any. -/
def findFirstExclusion (fieldMap : FieldMap) (baseDataFile : String)
    (exclusionRules : List QualRule) (record : Record) : Option QualRule :=
  exclusionRules.find? (exclusionRuleFires fieldMap baseDataFile record)

/-- An adjustment rule is applicable and its condition holds
(source lines 697-719). -/
def adjustmentRuleFires (fieldMap : FieldMap) (baseDataFile : String) (record : Record)
    (rule : AdjRule) : Bool :=
  match lookupField fieldMap rule.condition.field with
  | some fi =>
    fi.sourceFile = baseDataFile &&
    evaluateCondition (getField record fi.sourceField) rule.condition.operator
      rule.condition.value fi.dataType
  | none => false

/-- Apply one firing adjustment rule to the running
`(currentAmount, rateMultiplier)` state (source lines 720-773): Rate% is a
multiplicative change of the multiplier, Amount% adds a percentage of the
running amount, Amount/fixed adds the value; any other target/type
combination has no numeric effect.  Every firing rule pushes one
`Adjustment` log entry.  `none` models the throw from
`new Decimal(adj.value || 0)` on a malformed configured value. -/
def applyAdjustment (agentId : String) (rule : AdjRule)
    (st : ℚ × ℚ × List LogEntry) : Option (ℚ × ℚ × List LogEntry) :=
  match adjValueOpt rule.adjustment.value with
  | none => none
  | some adjValue =>
    let currentAmount := st.1
    let rateMultiplier := st.2.1
    let logs := st.2.2 ++ [⟨"Adjustment", rule.id, agentId⟩]
    if rule.adjustment.target = "Rate" ∧ rule.adjustment.type = "percentage" then
      some (currentAmount, rateMultiplier * (adjValue / 100), logs)
    else if rule.adjustment.target = "Amount" ∧ rule.adjustment.type = "percentage" then
      some (currentAmount + currentAmount * adjValue / 100, rateMultiplier, logs)
    else if rule.adjustment.target = "Amount" ∧ rule.adjustment.type = "fixed" then
      some (currentAmount + adjValue, rateMultiplier, logs)
    else
      some (currentAmount, rateMultiplier, logs)

/-- The adjustment loop (source lines 696-777): every applicable rule whose
condition is true is applied, in declaration order, with no short-circuit. -/
def adjustmentLoop (fieldMap : FieldMap) (baseDataFile agentId : String) (record : Record) :
    List AdjRule → ℚ × ℚ × List LogEntry → Option (ℚ × ℚ × List LogEntry)
  | [], st => some st
  | rule :: rest, st =>
    if adjustmentRuleFires fieldMap baseDataFile record rule then
      match applyAdjustment agentId rule st with
      | none => none
      | some st' => adjustmentLoop fieldMap baseDataFile agentId record rest st'
    else adjustmentLoop fieldMap baseDataFile agentId record rest st

/-- The processing outcome of one record, as recorded in
`rawRecordLevelData` and consumed by the aggregation step. -/
structure ProcessedRecord where
  origRecord : Record
  isExcluded : Bool
  currentAmount : ℚ
  rateMultiplier : ℚ
  adjustedAmount : ℚ
  adjustedAmountStr : String
  logs : List LogEntry
deriving DecidableEq

/-- Record-level processing (source lines 654-820): read the original
amount (`new Decimal(safeGet(record, amountField, 0))` — throws on a
malformed value, modelled by `none`), run the first-match exclusion scan,
then — only when not excluded — the adjustment loop; the final adjusted
amount is `currentAmount × rateMultiplier`, or exactly 0 when excluded. -/
def processRecord (fieldMap : FieldMap) (baseDataFile amountField agentId : String)
    (exclusionRules : List QualRule) (adjustmentRules : List AdjRule)
    (record : Record) : Option ProcessedRecord :=
  match jsDecimalOpt (getFieldD record amountField (.num 0)) with
  | none => none
  | some originalAmount =>
    match findFirstExclusion fieldMap baseDataFile exclusionRules record with
    | some rule =>
      some { origRecord := record, isExcluded := true,
             currentAmount := originalAmount, rateMultiplier := 1,
             adjustedAmount := 0, adjustedAmountStr := formatDecimal 0 2,
             logs := [⟨"Exclusion", rule.id, agentId⟩] }
    | none =>
      match adjustmentLoop fieldMap baseDataFile agentId record adjustmentRules
          (originalAmount, 1, []) with
      | none => none
      | some (currentAmount, rateMultiplier, logs) =>
        some { origRecord := record, isExcluded := false,
               currentAmount := currentAmount, rateMultiplier := rateMultiplier,
               adjustedAmount := currentAmount * rateMultiplier,
               adjustedAmountStr := formatDecimal (currentAmount * rateMultiplier) 2,
               logs := logs }

/-- The per-record accumulation into the agent's total credited amount
(source lines 813-817): excluded records contribute nothing. -/
def creditStep (acc : ℚ) (pr : ProcessedRecord) : ℚ :=
  if pr.isExcluded then acc else acc + pr.adjustedAmount

/-- C3: when the amount field parses and some applicable exclusion rule
fires, the record is excluded by the *first* firing rule in declaration
order, exactly one `Exclusion` log entry (that rule's) is emitted, no
adjustment rule runs (the logs contain nothing else), `rawRecordLevelData`
shows `adjustedAmount = "0.00"`, and the record adds nothing to the
agent's total credited amount. -/
theorem c3_exclusion_first_match (fieldMap : FieldMap)
    (baseDataFile amountField agentId : String) (exclusionRules : List QualRule)
    (adjustmentRules : List AdjRule) (record : Record) (a : ℚ) (rule : QualRule)
    (ha : jsDecimalOpt (getFieldD record amountField (.num 0)) = some a)
    (hex : findFirstExclusion fieldMap baseDataFile exclusionRules record = some rule) :
    ∃ pr, processRecord fieldMap baseDataFile amountField agentId
        exclusionRules adjustmentRules record = some pr ∧
      pr.isExcluded = true ∧
      pr.logs = [⟨"Exclusion", rule.id, agentId⟩] ∧
      pr.adjustedAmountStr = "0.00" ∧
      ∀ acc, creditStep acc pr = acc := by
  unfold processRecord
  rw [ha, hex]
  refine ⟨_, rfl, rfl, rfl, ?_, fun acc => ?_⟩
  · show formatDecimal 0 2 = "0.00"
    norm_num +decide [formatDecimal, roundHalfAwayFromZero]
  · simp [creditStep]

/-- Field map for the C3/C4 witness scenarios. -/
def c3FieldMap : FieldMap :=
  [("Payer", ⟨"Payer", "String", "Per Record", "NotApplicable", "base.csv"⟩),
   ("DeliveryStat", ⟨"Delivery Status", "String", "Per Record", "NotApplicable", "base.csv"⟩)]

/-- Two exclusion rules that both fire on the witness record — only the
first may take effect. -/
def c3ExclRules : List QualRule :=
  [⟨"e1", "Payer", "=", .str "17100002"⟩, ⟨"e2", "Payer", "CONTAINS", .str "171"⟩]

/-- Witness record: matches both exclusion rules. -/
def c3Record : Record :=
  [("Payer", .str "17100002"), ("Net Value", .num 90000),
   ("Delivery Status", .str "Fully Delivered")]

/-- An adjustment rule that would fire on the witness record were it not
excluded. -/
def c4AdjRule : AdjRule :=
  ⟨"a1", ⟨"DeliveryStat", "CONTAINS", .str "Fully"⟩, ⟨"Rate", "percentage", .num 200⟩⟩

/-- C3 witness: on the concrete record both exclusion rules fire, yet only
rule `e1` is logged, the adjustment rule is skipped, the shown adjusted
amount is `"0.00"` and the agent total is unchanged. -/
theorem c3_exclusion_first_match_witness :
    ∃ pr, processRecord c3FieldMap "base.csv" "Net Value" "102"
        c3ExclRules [c4AdjRule] c3Record = some pr ∧
      pr.isExcluded = true ∧
      pr.logs = [⟨"Exclusion", "e1", "102"⟩] ∧
      pr.adjustedAmountStr = "0.00" ∧
      ∀ acc, creditStep acc pr = acc :=
  c3_exclusion_first_match c3FieldMap "base.csv" "Net Value" "102"
    c3ExclRules [c4AdjRule] c3Record 90000 ⟨"e1", "Payer", "=", .str "17100002"⟩
    (by decide) (by decide)

/-- One adjustment step as the claim states it, on the running
`(currentAmount, rateMultiplier)` pair; the rule's configured value is the
parsed decimal (`getD 0` is immaterial under the well-formedness hypothesis
of `c4_adjustment_compound`). -/
def claimAdjStep (st : ℚ × ℚ) (rule : AdjRule) : ℚ × ℚ :=
  let v := (adjValueOpt rule.adjustment.value).getD 0
  if rule.adjustment.target = "Rate" ∧ rule.adjustment.type = "percentage" then
    (st.1, st.2 * (v / 100))
  else if rule.adjustment.target = "Amount" ∧ rule.adjustment.type = "percentage" then
    (st.1 + st.1 * v / 100, st.2)
  else if rule.adjustment.target = "Amount" ∧ rule.adjustment.type = "fixed" then
    (st.1 + v, st.2)
  else st

/-- `applyAdjustment` computes exactly one `claimAdjStep` and appends one
`Adjustment` log entry, whenever the configured value parses. -/
theorem applyAdjustment_some (agentId : String) (rule : AdjRule) (amt mult : ℚ)
    (logs : List LogEntry) (v : ℚ) (hv : adjValueOpt rule.adjustment.value = some v) :
    applyAdjustment agentId rule (amt, mult, logs) =
      some ((claimAdjStep (amt, mult) rule).1, (claimAdjStep (amt, mult) rule).2,
            logs ++ [⟨"Adjustment", rule.id, agentId⟩]) := by
  unfold applyAdjustment claimAdjStep
  rw [hv]
  simp only [Option.getD_some]
  by_cases h1 : rule.adjustment.target = "Rate" ∧ rule.adjustment.type = "percentage"
  · simp [h1]
  · by_cases h2 : rule.adjustment.target = "Amount" ∧ rule.adjustment.type = "percentage"
    · simp [h1, h2]
    · by_cases h3 : rule.adjustment.target = "Amount" ∧ rule.adjustment.type = "fixed"
      · simp [h1, h2, h3]
      · simp [h1, h2, h3]

/-- The adjustment loop equals the left fold of `claimAdjStep` over exactly
the firing rules, appending one `Adjustment` log entry per firing rule, as
long as every configured adjustment value parses. -/
theorem adjustmentLoop_spec (fieldMap : FieldMap) (baseDataFile agentId : String)
    (record : Record) :
    ∀ (rules : List AdjRule) (amt mult : ℚ) (logs : List LogEntry),
      (∀ rule ∈ rules, (adjValueOpt rule.adjustment.value).isSome = true) →
      adjustmentLoop fieldMap baseDataFile agentId record rules (amt, mult, logs) =
        some (((rules.filter (adjustmentRuleFires fieldMap baseDataFile record)).foldl
                 claimAdjStep (amt, mult)).1,
              ((rules.filter (adjustmentRuleFires fieldMap baseDataFile record)).foldl
                 claimAdjStep (amt, mult)).2,
              logs ++ (rules.filter (adjustmentRuleFires fieldMap baseDataFile record)).map
                (fun rule => (⟨"Adjustment", rule.id, agentId⟩ : LogEntry))) := by
  intro rules
  induction rules with
  | nil =>
    intro amt mult logs _
    simp [adjustmentLoop]
  | cons rule rest ih =>
    intro amt mult logs h
    obtain ⟨v, hv⟩ := Option.isSome_iff_exists.mp (h rule (List.mem_cons_self rule rest))
    by_cases hf : adjustmentRuleFires fieldMap baseDataFile record rule = true
    · rw [adjustmentLoop, if_pos hf]
      rw [applyAdjustment_some agentId rule amt mult logs v hv]
      simp only []
      rw [ih _ _ _ (fun r hr => h r (List.mem_cons_of_mem rule hr))]
      rw [List.filter_cons_of_pos hf, List.foldl_cons, List.map_cons]
      simp
    · rw [adjustmentLoop, if_neg hf]
      rw [ih _ _ _ (fun r hr => h r (List.mem_cons_of_mem rule hr))]
      rw [List.filter_cons_of_neg (by simpa using hf)]

/-- The second component of the claimed adjustment step. -/
theorem claimAdjStep_snd (st : ℚ × ℚ) (rule : AdjRule) :
    (claimAdjStep st rule).2 =
      if rule.adjustment.target = "Rate" ∧ rule.adjustment.type = "percentage" then
        st.2 * ((adjValueOpt rule.adjustment.value).getD 0 / 100)
      else st.2 := by
  unfold claimAdjStep
  by_cases h1 : rule.adjustment.target = "Rate" ∧ rule.adjustment.type = "percentage"
  · simp [h1]
  · by_cases h2 : rule.adjustment.target = "Amount" ∧ rule.adjustment.type = "percentage"
    · simp [h1, h2]
    · by_cases h3 : rule.adjustment.target = "Amount" ∧ rule.adjustment.type = "fixed"
      · simp [h1, h2, h3]
      · simp [h1, h2, h3]

/-- The running rate multiplier is independent of the amount updates: it is
the product of `value/100` over the firing `Rate`+`percentage` rules, in
order. -/
theorem foldl_claimAdjStep_snd :
    ∀ (rules : List AdjRule) (st : ℚ × ℚ),
      (rules.foldl claimAdjStep st).2 =
        (rules.filter (fun rule =>
            decide (rule.adjustment.target = "Rate" ∧ rule.adjustment.type = "percentage"))).foldl
          (fun m rule => m * ((adjValueOpt rule.adjustment.value).getD 0 / 100)) st.2 := by
  intro rules
  induction rules with
  | nil => intro st; rfl
  | cons rule rest ih =>
    intro st
    rw [List.foldl_cons, ih]
    by_cases h1 : rule.adjustment.target = "Rate" ∧ rule.adjustment.type = "percentage"
    · rw [List.filter_cons_of_pos (by simpa using h1), List.foldl_cons,
        claimAdjStep_snd, if_pos h1]
    · rw [List.filter_cons_of_neg (by simpa using h1),
        claimAdjStep_snd, if_neg h1]

/-- C4: on a non-excluded record whose amount and configured adjustment
values parse, every adjustment rule whose condition is true is applied in
declaration order with no short-circuit — the final
`(currentAmount, rateMultiplier)` is the left fold of the claimed step
function over exactly the firing rules (Rate% compounds the multiplier
multiplicatively, Amount% adds `amount × value/100`, Amount-fixed adds
`value`, unknown combinations have no numeric effect, and each firing rule
emits one `Adjustment` log entry) — and the record's final adjusted amount
is `currentAmount × rateMultiplier`. -/
theorem c4_adjustment_compound (fieldMap : FieldMap)
    (baseDataFile amountField agentId : String) (exclusionRules : List QualRule)
    (adjustmentRules : List AdjRule) (record : Record) (a : ℚ)
    (ha : jsDecimalOpt (getFieldD record amountField (.num 0)) = some a)
    (hexcl : findFirstExclusion fieldMap baseDataFile exclusionRules record = none)
    (hvals : ∀ rule ∈ adjustmentRules, (adjValueOpt rule.adjustment.value).isSome = true) :
    ∃ pr, processRecord fieldMap baseDataFile amountField agentId
        exclusionRules adjustmentRules record = some pr ∧
      pr.isExcluded = false ∧
      (pr.currentAmount, pr.rateMultiplier) =
        (adjustmentRules.filter (adjustmentRuleFires fieldMap baseDataFile record)).foldl
          claimAdjStep (a, 1) ∧
      pr.rateMultiplier =
        ((adjustmentRules.filter (adjustmentRuleFires fieldMap baseDataFile record)).filter
          (fun rule =>
            decide (rule.adjustment.target = "Rate" ∧ rule.adjustment.type = "percentage"))).foldl
          (fun m rule => m * ((adjValueOpt rule.adjustment.value).getD 0 / 100)) 1 ∧
      pr.adjustedAmount = pr.currentAmount * pr.rateMultiplier ∧
      pr.logs = (adjustmentRules.filter (adjustmentRuleFires fieldMap baseDataFile record)).map
        (fun rule => ⟨"Adjustment", rule.id, agentId⟩) := by
  unfold processRecord
  rw [ha, hexcl]
  simp only [adjustmentLoop_spec fieldMap baseDataFile agentId record
    adjustmentRules a 1 [] hvals]
  refine ⟨_, rfl, rfl, rfl, ?_, rfl, by simp⟩
  show ((adjustmentRules.filter (adjustmentRuleFires fieldMap baseDataFile record)).foldl
      claimAdjStep (a, 1)).2 = _
  rw [foldl_claimAdjStep_snd]

/-- Non-excluded witness record for C4. -/
def c4Record : Record :=
  [("Net Value", .num 50000), ("Delivery Status", .str "Fully Delivered"),
   ("Payer", .str "CUST001")]

/-- C4 witness: on the concrete non-excluded record the firing
`Rate`+`percentage` rule compounds the multiplier and the adjusted amount
is `currentAmount × rateMultiplier`. -/
theorem c4_adjustment_compound_witness :
    ∃ pr, processRecord c3FieldMap "base.csv" "Net Value" "101"
        c3ExclRules [c4AdjRule] c4Record = some pr ∧
      pr.isExcluded = false ∧
      (pr.currentAmount, pr.rateMultiplier) =
        ([c4AdjRule].filter (adjustmentRuleFires c3FieldMap "base.csv" c4Record)).foldl
          claimAdjStep (50000, 1) ∧
      pr.rateMultiplier =
        (([c4AdjRule].filter (adjustmentRuleFires c3FieldMap "base.csv" c4Record)).filter
          (fun rule =>
            decide (rule.adjustment.target = "Rate" ∧ rule.adjustment.type = "percentage"))).foldl
          (fun m rule => m * ((adjValueOpt rule.adjustment.value).getD 0 / 100)) 1 ∧
      pr.adjustedAmount = pr.currentAmount * pr.rateMultiplier ∧
      pr.logs = ([c4AdjRule].filter (adjustmentRuleFires c3FieldMap "base.csv" c4Record)).map
        (fun rule => ⟨"Adjustment", rule.id, "101"⟩) :=
  c4_adjustment_compound c3FieldMap "base.csv" "Net Value" "101"
    c3ExclRules [c4AdjRule] c4Record 50000 (by decide) (by decide) (by decide)

/-! ## `findManager` (source line 257) -/

/-- The per-row scan body of `findManager` (source lines 278-303): the row
must match the agent (row value trimmed) and the level (trimmed,
case-insensitive), both `ReportsFrom`/`ReportsToEnd` must parse (without
`String(...)` coercion — non-strings fail), the validity window must
satisfy `reportsFrom ≤ runAsDate` and `reportsToEnd ≥ schemeEffectiveFrom`,
and the `ManagerID` must be present and non-empty after trimming; the
returned manager id is trimmed. -/
def managerOfRow (agentId level : String) (schemeEffectiveFrom runAsDate : UTCDate)
    (row : Record) : Option String :=
  let rowAgentId := jsTrim (jsToString (getFieldD row "AgentID" (.str "")))
  let rowLevel := jsToUpper (jsTrim (jsToString (getFieldD row "Level" (.str ""))))
  if rowAgentId = agentId ∧ rowLevel = jsToUpper level then
    match parseDateValueStrict (getField row "ReportsFrom"),
          parseDateValueStrict (getField row "ReportsToEnd") with
    | some reportsFrom, some reportsToEnd =>
      if compareDates reportsFrom runAsDate ≤ 0 ∧
         0 ≤ compareDates reportsToEnd schemeEffectiveFrom then
        match getField row "ManagerID" with
        | .null => none
        | mv =>
          let managerId := jsTrim (jsToString mv)
          if managerId = "" then none else some managerId
      else none
    | _, _ => none
  else none

/-- `findManager(agentId, level, hierarchyData, schemeEffectiveFrom,
runAsDate)` (source line 257): the falsy-argument guard, then the
first-match scan over the hierarchy rows. -/
def findManager (agentId level : String) (hierarchyData : List Record)
    (schemeEffectiveFrom runAsDate : UTCDate) : Option String :=
  if agentId = "" ∨ level = "" then none
  else hierarchyData.findSome? (managerOfRow agentId level schemeEffectiveFrom runAsDate)

/-- The claimed `findManager` semantics, written from the specification's
words: return the (trimmed) manager id of the first hierarchy record in
input order that matches the agent exactly and the role case-insensitively,
whose validity window overlaps the run window (`reportsFrom ≤ runAsOf` and
`reportsToEnd ≥ schemeStart`) and that carries a non-empty manager id;
`none` when no such record exists. -/
def findManagerSpec (agentId level : String) (hierarchyData : List Record)
    (schemeEffectiveFrom runAsDate : UTCDate) : Option String :=
  hierarchyData.findSome? (managerOfRow agentId level schemeEffectiveFrom runAsDate)

/-- C6 counterexample: with an *empty* agent id and a hierarchy row whose
(trimmed) agent id is also empty, a matching record with an overlapping
window and a non-empty manager exists, yet `findManager` returns `none`
because of its falsy-argument guard — the claim's universally-quantified
first-match characterisation fails there. -/
theorem c6_counterexample :
    findManager "" "L1"
      [[("AgentID", .str ""), ("Level", .str "L1"), ("ManagerID", .str "M1"),
        ("ReportsFrom", .str "2024-01-01"), ("ReportsToEnd", .str "2024-12-31")]]
      ⟨2024, 12, 1⟩ ⟨2024, 12, 31⟩ = none ∧
    findManagerSpec "" "L1"
      [[("AgentID", .str ""), ("Level", .str "L1"), ("ManagerID", .str "M1"),
        ("ReportsFrom", .str "2024-01-01"), ("ReportsToEnd", .str "2024-12-31")]]
      ⟨2024, 12, 1⟩ ⟨2024, 12, 31⟩ = some "M1" := by
  decide

/-- C6 (amended): for every *non-empty* agentId and role, `findManager`
returns exactly the claimed first matching valid manager (in particular,
`none` when no matching record's validity window overlaps
`[schemeStart, runAsOf]`, and a manager whenever a matching record with a
non-empty manager id overlaps even partially); when agentId or role is
empty it returns `none` unconditionally. -/
theorem c6_findManager_first_valid (agentId level : String) (hierarchyData : List Record)
    (schemeEffectiveFrom runAsDate : UTCDate)
    (ha : agentId ≠ "") (hl : level ≠ "") :
    findManager agentId level hierarchyData schemeEffectiveFrom runAsDate =
      findManagerSpec agentId level hierarchyData schemeEffectiveFrom runAsDate := by
  unfold findManager findManagerSpec
  rw [if_neg (by rintro (h | h) <;> [exact ha h; exact hl h])]

/-- C6 witness: a hierarchy window `[2024-01-01, 2024-12-31]` only
partially overlapping the run window `[2024-12-01, 2024-12-31]` resolves
the manager, matching the claimed first-match semantics. -/
theorem c6_findManager_first_valid_witness :
    findManager "101" "l1"
      [[("AgentID", .str "101"), ("Level", .str "L1"), ("ManagerID", .str "MGR_A"),
        ("ReportsFrom", .str "2024-01-01"), ("ReportsToEnd", .str "2024-12-31")]]
      ⟨2024, 12, 1⟩ ⟨2024, 12, 31⟩ =
    findManagerSpec "101" "l1"
      [[("AgentID", .str "101"), ("Level", .str "L1"), ("ManagerID", .str "MGR_A"),
        ("ReportsFrom", .str "2024-01-01"), ("ReportsToEnd", .str "2024-12-31")]]
      ⟨2024, 12, 1⟩ ⟨2024, 12, 31⟩ ∧
    findManager "101" "l1"
      [[("AgentID", .str "101"), ("Level", .str "L1"), ("ManagerID", .str "MGR_A"),
        ("ReportsFrom", .str "2024-01-01"), ("ReportsToEnd", .str "2024-12-31")]]
      ⟨2024, 12, 1⟩ ⟨2024, 12, 31⟩ = some "MGR_A" :=
  ⟨c6_findManager_first_valid "101" "l1" _ ⟨2024, 12, 1⟩ ⟨2024, 12, 31⟩
    (by decide) (by decide), by decide⟩

/-! ## `runScheme` (source line 399) -/

/-- A credit split `{ id, role, percentage }`; the percentage is the parsed
decimal of the configured number (`new Decimal(split.percentage || 0)`),
and `role = ""` models a missing role. -/
structure CreditSplit where
  id : String
  role : String
  percentage : ℚ
deriving DecidableEq

/-- The scheme definition, restricted to the attributes `runScheme` reads.
`kpiFields` is the concatenation of the five `kpiConfig` sections in source
order (baseData, qualificationFields, adjustmentFields, exclusionFields,
creditFields); `payoutTiers = none` models an absent/falsy `payoutTiers`;
`baseMapping = none` models a missing `baseMapping`.  The unused
`customRules` placeholder (source lines 779-790) only prints a warning and
sets a status string; it is not modelled. -/
structure Scheme where
  name : String
  effectiveFrom : String
  baseMapping : Option BaseMapping
  qualificationRules : List QualRule
  exclusionRules : List QualRule
  adjustmentRules : List AdjRule
  creditSplits : List CreditSplit
  payoutTiers : Option (List Tier)
  creditHierarchyFile : Option String
  kpiFields : List KpiField
deriving DecidableEq

/-- The uploaded files: dataset name → parsed rows. -/
abbrev Files := List (String × List Record)

/-- `uploadedFiles[name]`. -/
def lookupFile (files : Files) (name : String) : Option (List Record) :=
  (files.find? (fun p => p.1 = name)).map (fun p => p.2)

/-- A credit-distribution entry as pushed for a manager (source lines
941-949); the contextual `basePayoutFromAgent`/`percentageApplied`/
timestamp fields are not modelled. -/
structure DistEntry where
  fromAgent : String
  role : String
  amount : String
  splitRuleId : String
deriving DecidableEq

/-- The `runScheme` result: `{ agentPayouts, ruleHitLogs,
creditDistributions, rawRecordLevelData }`.  JS objects keyed by agent /
manager id are modelled as association lists in insertion order. -/
structure RunResult where
  agentPayouts : List (String × String)
  ruleHitLogs : List (String × List LogEntry)
  creditDistributions : List (String × List DistEntry)
  rawRecordLevelData : List ProcessedRecord
deriving DecidableEq

/-- The `payoutTiers` normalisation (source lines 453-458): a falsy
`payoutTiers` is replaced — *on the scheme object itself* — by an empty
array. -/
def normalizePayoutTiers (scheme : Scheme) : Scheme :=
  match scheme.payoutTiers with
  | none => { scheme with payoutTiers := some [] }
  | some _ => scheme

/-- Grouping context: the resolved configuration shared by the whole run. -/
structure RunCtx where
  fieldMap : FieldMap
  baseDataFile : String
  agentIdField : String
  amountField : String
  transactionDateField : String
  qualificationRules : List QualRule
  exclusionRules : List QualRule
  adjustmentRules : List AdjRule
  creditSplits : List CreditSplit
  payoutTiers : List Tier
  hierarchyData : List Record
  schemeStart : UTCDate
  runDate : UTCDate

/-- Append a record to its agent's group, preserving first-appearance key
order (JS object insertion order; integer-like key reordering of JS `for
in` is not modelled — no claim depends on the relative order of agents). -/
def groupInsert (groups : List (String × List Record)) (agentId : String)
    (record : Record) : List (String × List Record) :=
  match groups with
  | [] => [(agentId, [record])]
  | (k, rs) :: rest =>
    if k = agentId then (k, rs ++ [record]) :: rest
    else (k, rs) :: groupInsert rest agentId record

/-- Group the qualified records by trimmed agent id (source lines 621-636).
When the agent id is missing or empty the source's `console.warn` template
references the undefined variable `_recordId`, so the reduce throws a
`ReferenceError` at the first such record — modelled as an error. -/
def groupByAgent (agentIdField : String) :
    List Record → List (String × List Record) → Except String (List (String × List Record))
  | [], groups => .ok groups
  | record :: rest, groups =>
    let agentId := jsTrim (jsToString (getFieldD record agentIdField (.str "UNKNOWN_AGENT")))
    if agentId = "UNKNOWN_AGENT" ∨ agentId = "" then
      .error "ReferenceError: _recordId is not defined"
    else groupByAgent agentIdField rest (groupInsert groups agentId record)

/-- Process the agent's records in order; `none` models the uncaught throw
from `new Decimal` on a malformed amount (source line 660). -/
def processRecords (fieldMap : FieldMap) (baseDataFile amountField agentId : String)
    (exclusionRules : List QualRule) (adjustmentRules : List AdjRule) :
    List Record → Option (List ProcessedRecord)
  | [] => some []
  | r :: rest =>
    match processRecord fieldMap baseDataFile amountField agentId
        exclusionRules adjustmentRules r with
    | none => none
    | some pr =>
      (processRecords fieldMap baseDataFile amountField agentId
        exclusionRules adjustmentRules rest).map (fun prs => pr :: prs)

/-- The agent-level qualification loop (source lines 838-884) over the
rules whose field resolves with `evaluationLevel = 'Agent'`: only a rule on
the primary amount field with `Sum` aggregation is evaluated (against the
summed credited amount, as `Number`); other rules are skipped with a
warning; the first failing rule logs a `Qualification` entry and stops. -/
def agentQualLoop (fieldMap : FieldMap) (amountField agentId : String) (total : ℚ) :
    List QualRule → Bool × List LogEntry
  | [] => (true, [])
  | rule :: rest =>
    match lookupField fieldMap rule.field with
    | some fi =>
      if fi.sourceField = amountField ∧ fi.aggregation = "Sum" then
        if evaluateCondition (.num total) rule.operator rule.value "Number" then
          agentQualLoop fieldMap amountField agentId total rest
        else (false, [⟨"Qualification", rule.id, agentId⟩])
      else agentQualLoop fieldMap amountField agentId total rest
    | none => agentQualLoop fieldMap amountField agentId total rest

/-- Agent-level qualification (source lines 824-885): a non-positive total
never qualifies (and emits no log); otherwise the `Agent`-level rules are
scanned. -/
def agentQualification (fieldMap : FieldMap) (amountField agentId : String)
    (qualificationRules : List QualRule) (total : ℚ) : Bool × List LogEntry :=
  if total ≤ 0 then (false, [])
  else
    agentQualLoop fieldMap amountField agentId total
      (qualificationRules.filter (fun rule =>
        match lookupField fieldMap rule.field with
        | some fi => fi.evaluationLevel = "Agent"
        | none => false))

/-- The credit-split loop (source lines 911-985): skip invalid splits,
resolve the manager per split, record a distribution and a success log when
found (and the split amount is positive), or a failure log otherwise. -/
def splitLoop (ctx : RunCtx) (agentId : String) (basePayout : ℚ) :
    List CreditSplit → List LogEntry × List (String × DistEntry)
  | [] => ([], [])
  | split :: rest =>
    let tail := splitLoop ctx agentId basePayout rest
    if split.role = "" ∨ split.percentage ≤ 0 then tail
    else
      match findManager agentId split.role ctx.hierarchyData ctx.schemeStart ctx.runDate with
      | some managerId =>
        let splitAmount := basePayout * split.percentage / 100
        if 0 < splitAmount then
          (⟨"CreditSplit", split.id, agentId⟩ :: tail.1,
           (managerId, ⟨agentId, split.role, formatDecimal splitAmount 2, split.id⟩) :: tail.2)
        else tail
      | none => (⟨"CreditSplit", split.id, agentId⟩ :: tail.1, tail.2)

/-- The credit-split phase (source lines 903-1001): active only for a
positive base payout with configured splits; with splits but no hierarchy
data a single explanatory `CreditSplit` log entry (`ruleId = 'N/A'`) is
emitted instead. -/
def creditSplitPhase (ctx : RunCtx) (agentId : String) (basePayout : ℚ) :
    List LogEntry × List (String × DistEntry) :=
  if 0 < basePayout ∧ ctx.creditSplits ≠ [] ∧ ctx.hierarchyData ≠ [] then
    splitLoop ctx agentId basePayout ctx.creditSplits
  else if 0 < basePayout ∧ ctx.creditSplits ≠ [] then
    ([⟨"CreditSplit", "N/A", agentId⟩], [])
  else ([], [])

/-- Everything `runScheme` computes for one agent. -/
structure AgentOutcome where
  raw : List ProcessedRecord
  payoutStr : String
  logs : List LogEntry
  dists : List (String × DistEntry)
deriving DecidableEq

/-- One iteration of the agent loop (source lines 645-1009): record-level
processing, credited-amount aggregation, agent qualification, tiered payout
and credit splits. -/
def processAgent (ctx : RunCtx) (agentId : String) (records : List Record) :
    Except String AgentOutcome :=
  match processRecords ctx.fieldMap ctx.baseDataFile ctx.amountField agentId
      ctx.exclusionRules ctx.adjustmentRules records with
  | none => .error "[DecimalError] Invalid argument"
  | some prs =>
    let total := prs.foldl creditStep 0
    let recordLogs := (prs.map (fun pr => pr.logs)).flatten
    let q := agentQualification ctx.fieldMap ctx.amountField agentId
      ctx.qualificationRules total
    let basePayout := if q.1 then calculateMarginalTieredPayout total ctx.payoutTiers else 0
    let sp := creditSplitPhase ctx agentId basePayout
    .ok { raw := prs, payoutStr := formatDecimal basePayout 2,
          logs := recordLogs ++ q.2 ++ sp.1, dists := sp.2 }

/-- Append a distribution entry under its manager key (source lines
936-950), preserving first-appearance key order. -/
def insertDist (dists : List (String × List DistEntry)) (managerId : String)
    (e : DistEntry) : List (String × List DistEntry) :=
  match dists with
  | [] => [(managerId, [e])]
  | (k, es) :: rest =>
    if k = managerId then (k, es ++ [e]) :: rest
    else (k, es) :: insertDist rest managerId e

/-- The loop over agents (source lines 645-1009), threading the four result
collections; an agent's logs are appended under its key only when non-empty
(source lines 1003-1008). -/
def agentLoop (ctx : RunCtx) : List (String × List Record) → RunResult → Except String RunResult
  | [], st => .ok st
  | (agentId, records) :: rest, st =>
    if agentId = "UNKNOWN_AGENT" then agentLoop ctx rest st
    else
      match processAgent ctx agentId records with
      | .error e => .error e
      | .ok oc =>
        agentLoop ctx rest
          { agentPayouts := st.agentPayouts ++ [(agentId, oc.payoutStr)],
            ruleHitLogs := st.ruleHitLogs ++ (if oc.logs = [] then [] else [(agentId, oc.logs)]),
            creditDistributions := oc.dists.foldl (fun ds p => insertDist ds p.1 p.2)
              st.creditDistributions,
            rawRecordLevelData := st.rawRecordLevelData ++ oc.raw }

/-- Selection, grouping and the agent loop over a validated configuration
(the body of `runScheme` after its fatal validation). -/
def runSchemeCore (ctx : RunCtx) (baseData : List Record) : Except String RunResult :=
  match groupByAgent ctx.agentIdField
      (selectRecords ctx.fieldMap ctx.baseDataFile ctx.transactionDateField
        ctx.schemeStart ctx.runDate ctx.qualificationRules baseData) [] with
  | .error e => .error e
  | .ok groups => agentLoop ctx groups ⟨[], [], [], []⟩

/-- `runScheme(scheme, uploadedFiles, runAsOfDate)` (source line 399).
Fatal validation first (invalid run date, invalid scheme start, incomplete
`baseMapping`, missing base dataset — in source order, with the
`payoutTiers` normalisation in between), then `runSchemeCore`.  The
returned `Scheme` is the scheme object as it stands after the run (the
source mutates `scheme.payoutTiers` in place; on a validation throw after
that point the caller's object is likewise left normalised, which the
`Except.error` model does not carry).  The hierarchy dataset and the
uploaded files are never written to anywhere in the pipeline. -/
def runScheme (scheme : Scheme) (uploadedFiles : Files) (runAsOfDate : String) :
    Except String (RunResult × Scheme) :=
  match parseDate runAsOfDate with
  | none => .error "Invalid runAsOfDate format"
  | some runDate =>
    match parseDate scheme.effectiveFrom with
    | none => .error "Invalid scheme.effectiveFrom date"
    | some schemeStart =>
      match scheme.baseMapping with
      | none => .error "Scheme baseMapping is missing required fields"
      | some bm =>
        if bm.sourceFile = "" ∨ bm.agentField = "" ∨ bm.amountField = "" ∨
            bm.transactionDateField = "" then
          .error "Scheme baseMapping is missing required fields"
        else
          let scheme' := normalizePayoutTiers scheme
          match lookupFile uploadedFiles bm.sourceFile with
          | none => .error "Base data file not found or is not an array"
          | some baseData =>
            let hierarchyData :=
              match scheme.creditHierarchyFile with
              | none => []
              | some hf => if hf = "" then [] else (lookupFile uploadedFiles hf).getD []
            let ctx : RunCtx :=
              { fieldMap := buildFieldMap scheme.kpiFields bm,
                baseDataFile := bm.sourceFile,
                agentIdField := bm.agentField,
                amountField := bm.amountField,
                transactionDateField := bm.transactionDateField,
                qualificationRules := scheme.qualificationRules,
                exclusionRules := scheme.exclusionRules,
                adjustmentRules := scheme.adjustmentRules,
                creditSplits := scheme.creditSplits,
                payoutTiers := scheme'.payoutTiers.getD [],
                hierarchyData := hierarchyData,
                schemeStart := schemeStart, runDate := runDate }
            (runSchemeCore ctx baseData).map (fun result => (result, scheme'))

/-- Invert a successful `Except.map`. -/
theorem exceptMap_ok {ε α β : Type} (e : Except ε α) (f : α → β) (y : β)
    (h : e.map f = .ok y) : ∃ x, e = .ok x ∧ y = f x := by
  cases e with
  | error err => simp [Except.map] at h
  | ok x =>
    refine ⟨x, rfl, ?_⟩
    simpa [Except.map] using h.symm

/-- Invert a successful `runSchemeCore`: some grouping succeeded and the
agent loop produced the result from the empty initial state. -/
theorem runSchemeCore_ok (ctx : RunCtx) (baseData : List Record) (res : RunResult)
    (h : runSchemeCore ctx baseData = .ok res) :
    ∃ groups,
      groupByAgent ctx.agentIdField
        (selectRecords ctx.fieldMap ctx.baseDataFile ctx.transactionDateField
          ctx.schemeStart ctx.runDate ctx.qualificationRules baseData) [] = .ok groups ∧
      agentLoop ctx groups ⟨[], [], [], []⟩ = .ok res := by
  unfold runSchemeCore at h
  cases hg : groupByAgent ctx.agentIdField
      (selectRecords ctx.fieldMap ctx.baseDataFile ctx.transactionDateField
        ctx.schemeStart ctx.runDate ctx.qualificationRules baseData) [] with
  | error e => rw [hg] at h; exact Except.noConfusion h
  | ok groups => rw [hg] at h; exact ⟨groups, rfl, h⟩

/-- Invert a successful `runScheme`: the returned scheme is the (possibly
`payoutTiers`-normalised) input scheme, and the result came from the core
pipeline. -/
theorem runScheme_ok_inv (scheme : Scheme) (files : Files) (d : String)
    (res : RunResult) (s' : Scheme)
    (h : runScheme scheme files d = .ok (res, s')) :
    s' = normalizePayoutTiers scheme ∧
    ∃ ctx baseData, runSchemeCore ctx baseData = .ok res := by
  unfold runScheme at h
  cases h1 : parseDate d with
  | none => rw [h1] at h; exact Except.noConfusion h
  | some runDate =>
  simp only [h1] at h
  cases h2 : parseDate scheme.effectiveFrom with
  | none => rw [h2] at h; exact Except.noConfusion h
  | some schemeStart =>
  simp only [h2] at h
  cases h3 : scheme.baseMapping with
  | none => rw [h3] at h; exact Except.noConfusion h
  | some bm =>
  simp only [h3] at h
  by_cases h4 : bm.sourceFile = "" ∨ bm.agentField = "" ∨ bm.amountField = "" ∨
      bm.transactionDateField = ""
  · rw [if_pos h4] at h; exact Except.noConfusion h
  · rw [if_neg h4] at h
    cases h5 : lookupFile files bm.sourceFile with
    | none => rw [h5] at h; exact Except.noConfusion h
    | some baseData =>
    simp only [h5] at h
    obtain ⟨result, hcore, hpair⟩ := exceptMap_ok _ _ _ h
    obtain ⟨hres, hs⟩ := Prod.mk.inj hpair
    rw [← hres] at hcore
    exact ⟨hs, ⟨_, baseData, hcore⟩⟩

/-- A successful `applyAdjustment` appends exactly one `Adjustment` entry
stamped with the agent id. -/
theorem applyAdjustment_logs (agentId : String) (rule : AdjRule) (amt mult : ℚ)
    (logs : List LogEntry) (st' : ℚ × ℚ × List LogEntry)
    (h : applyAdjustment agentId rule (amt, mult, logs) = some st') :
    st'.2.2 = logs ++ [⟨"Adjustment", rule.id, agentId⟩] := by
  cases hv : adjValueOpt rule.adjustment.value with
  | none =>
    unfold applyAdjustment at h
    rw [hv] at h
    exact Option.noConfusion h
  | some v =>
    rw [applyAdjustment_some agentId rule amt mult logs v hv] at h
    rw [← Option.some_inj.mp h]

/-- Every log entry accumulated by the adjustment loop is stamped with the
agent id (given that the incoming accumulator already is). -/
theorem adjustmentLoop_logs (fieldMap : FieldMap) (baseDataFile agentId : String)
    (record : Record) :
    ∀ (rules : List AdjRule) (amt mult : ℚ) (logs0 : List LogEntry)
      (out : ℚ × ℚ × List LogEntry),
      adjustmentLoop fieldMap baseDataFile agentId record rules (amt, mult, logs0) = some out →
      (∀ e ∈ logs0, e.agentId = agentId) →
      ∀ e ∈ out.2.2, e.agentId = agentId := by
  intro rules
  induction rules with
  | nil =>
    intro amt mult logs0 out h h0 e he
    unfold adjustmentLoop at h
    rw [← Option.some_inj.mp h] at he
    exact h0 e he
  | cons rule rest ih =>
    intro amt mult logs0 out h h0
    rw [adjustmentLoop] at h
    by_cases hf : adjustmentRuleFires fieldMap baseDataFile record rule = true
    · rw [if_pos hf] at h
      cases ha : applyAdjustment agentId rule (amt, mult, logs0) with
      | none => rw [ha] at h; exact absurd h (by simp)
      | some st' =>
        simp only [ha] at h
        have hst := applyAdjustment_logs agentId rule amt mult logs0 st' ha
        obtain ⟨amt', mult', logs'⟩ := st'
        refine ih amt' mult' logs' out h ?_
        rw [show (amt', mult', logs').2.2 = logs' from rfl] at hst
        rw [hst]
        intro e he
        rcases List.mem_append.mp he with h1 | h2
        · exact h0 e h1
        · rw [List.mem_singleton.mp h2]
    · rw [if_neg hf] at h
      exact ih amt mult logs0 out h h0

/-- Every log entry of a processed record is stamped with the agent id. -/
theorem processRecord_logs (fieldMap : FieldMap) (baseDataFile amountField agentId : String)
    (exclusionRules : List QualRule) (adjustmentRules : List AdjRule)
    (record : Record) (pr : ProcessedRecord)
    (h : processRecord fieldMap baseDataFile amountField agentId
        exclusionRules adjustmentRules record = some pr) :
    ∀ e ∈ pr.logs, e.agentId = agentId := by
  unfold processRecord at h
  cases h1 : jsDecimalOpt (getFieldD record amountField (.num 0)) with
  | none => rw [h1] at h; exact Option.noConfusion h
  | some a =>
  simp only [h1] at h
  cases h2 : findFirstExclusion fieldMap baseDataFile exclusionRules record with
  | some rule =>
    simp only [h2] at h
    rw [← Option.some_inj.mp h]
    intro e he
    rw [List.mem_singleton.mp he]
  | none =>
    simp only [h2] at h
    cases h3 : adjustmentLoop fieldMap baseDataFile agentId record adjustmentRules
        (a, 1, []) with
    | none => rw [h3] at h; exact Option.noConfusion h
    | some out =>
      obtain ⟨amt, mult, logs⟩ := out
      simp only [h3] at h
      rw [← Option.some_inj.mp h]
      exact adjustmentLoop_logs fieldMap baseDataFile agentId record adjustmentRules
        a 1 [] (amt, mult, logs) h3 (fun e he => absurd he (List.not_mem_nil e))

/-- Each processed record in a successful batch comes from `processRecord`
on some input record. -/
theorem processRecords_mem (fieldMap : FieldMap) (baseDataFile amountField agentId : String)
    (exclusionRules : List QualRule) (adjustmentRules : List AdjRule) :
    ∀ (records : List Record) (prs : List ProcessedRecord),
      processRecords fieldMap baseDataFile amountField agentId
        exclusionRules adjustmentRules records = some prs →
      ∀ pr ∈ prs, ∃ r, processRecord fieldMap baseDataFile amountField agentId
        exclusionRules adjustmentRules r = some pr := by
  intro records
  induction records with
  | nil =>
    intro prs h pr hpr
    unfold processRecords at h
    rw [← Option.some_inj.mp h] at hpr
    exact absurd hpr (List.not_mem_nil pr)
  | cons r rest ih =>
    intro prs h pr hpr
    rw [processRecords] at h
    cases h1 : processRecord fieldMap baseDataFile amountField agentId
        exclusionRules adjustmentRules r with
    | none => rw [h1] at h; exact Option.noConfusion h
    | some pr0 =>
      simp only [h1] at h
      cases h2 : processRecords fieldMap baseDataFile amountField agentId
          exclusionRules adjustmentRules rest with
      | none => rw [h2] at h; exact Option.noConfusion h
      | some prs' =>
        rw [h2, Option.map_some'] at h
        rw [← Option.some_inj.mp h] at hpr
        rcases List.mem_cons.mp hpr with h3 | h3
        · exact ⟨r, by rw [h1, h3]⟩
        · exact ih prs' h2 pr h3

/-- Every agent-qualification log entry is stamped with the agent id. -/
theorem agentQualLoop_logs (fieldMap : FieldMap) (amountField agentId : String) (total : ℚ) :
    ∀ (rules : List QualRule),
      ∀ e ∈ (agentQualLoop fieldMap amountField agentId total rules).2,
        e.agentId = agentId := by
  intro rules
  induction rules with
  | nil => intro e he; exact absurd he (List.not_mem_nil e)
  | cons rule rest ih =>
    intro e he
    rw [agentQualLoop] at he
    cases hfi : lookupField fieldMap rule.field with
    | none => rw [hfi] at he; exact ih e he
    | some fi =>
      simp only [hfi] at he
      by_cases h1 : fi.sourceField = amountField ∧ fi.aggregation = "Sum"
      · rw [if_pos h1] at he
        by_cases h2 : evaluateCondition (.num total) rule.operator rule.value "Number" = true
        · rw [if_pos h2] at he; exact ih e he
        · rw [if_neg h2] at he
          rw [List.mem_singleton.mp he]
      · rw [if_neg h1] at he; exact ih e he

/-- Every credit-split log entry is stamped with the agent id. -/
theorem splitLoop_logs (ctx : RunCtx) (agentId : String) (basePayout : ℚ) :
    ∀ (splits : List CreditSplit),
      ∀ e ∈ (splitLoop ctx agentId basePayout splits).1, e.agentId = agentId := by
  intro splits
  induction splits with
  | nil => intro e he; exact absurd he (List.not_mem_nil e)
  | cons split rest ih =>
    intro e he
    rw [splitLoop] at he
    by_cases h1 : split.role = "" ∨ split.percentage ≤ 0
    · rw [if_pos h1] at he; exact ih e he
    · rw [if_neg h1] at he
      cases hm : findManager agentId split.role ctx.hierarchyData ctx.schemeStart ctx.runDate with
      | none =>
        simp only [hm] at he
        rcases List.mem_cons.mp he with h2 | h2
        · rw [h2]
        · exact ih e h2
      | some managerId =>
        simp only [hm] at he
        by_cases h3 : 0 < basePayout * split.percentage / 100
        · rw [if_pos h3] at he
          rcases List.mem_cons.mp he with h2 | h2
          · rw [h2]
          · exact ih e h2
        · rw [if_neg h3] at he; exact ih e he

/-- Every log entry of the credit-split phase is stamped with the agent id. -/
theorem creditSplitPhase_logs (ctx : RunCtx) (agentId : String) (basePayout : ℚ) :
    ∀ e ∈ (creditSplitPhase ctx agentId basePayout).1, e.agentId = agentId := by
  intro e he
  unfold creditSplitPhase at he
  by_cases h1 : 0 < basePayout ∧ ctx.creditSplits ≠ [] ∧ ctx.hierarchyData ≠ []
  · rw [if_pos h1] at he
    exact splitLoop_logs ctx agentId basePayout ctx.creditSplits e he
  · rw [if_neg h1] at he
    by_cases h2 : 0 < basePayout ∧ ctx.creditSplits ≠ []
    · rw [if_pos h2] at he
      rw [List.mem_singleton.mp he]
    · rw [if_neg h2] at he
      exact absurd he (List.not_mem_nil e)

/-- Every log entry emitted while processing an agent is stamped with that
agent's id. -/
theorem processAgent_logs (ctx : RunCtx) (agentId : String) (records : List Record)
    (oc : AgentOutcome) (h : processAgent ctx agentId records = .ok oc) :
    ∀ e ∈ oc.logs, e.agentId = agentId := by
  unfold processAgent at h
  cases h1 : processRecords ctx.fieldMap ctx.baseDataFile ctx.amountField agentId
      ctx.exclusionRules ctx.adjustmentRules records with
  | none => rw [h1] at h; exact Except.noConfusion h
  | some prs =>
    simp only [h1] at h
    have hoc := Except.ok.inj h
    rw [← hoc]
    intro e he
    simp only [] at he
    rcases List.mem_append.mp he with he1 | he2
    · rcases List.mem_append.mp he1 with he3 | he4
      · obtain ⟨l, hl, hel⟩ := List.mem_flatten.mp he3
        obtain ⟨pr, hpr, hprl⟩ := List.mem_map.mp hl
        obtain ⟨r, hr⟩ := processRecords_mem ctx.fieldMap ctx.baseDataFile ctx.amountField
          agentId ctx.exclusionRules ctx.adjustmentRules records prs h1 pr hpr
        exact processRecord_logs ctx.fieldMap ctx.baseDataFile ctx.amountField agentId
          ctx.exclusionRules ctx.adjustmentRules r pr hr e (hprl ▸ hel)
      · unfold agentQualification at he4
        by_cases hq : (prs.foldl creditStep 0) ≤ 0
        · rw [if_pos hq] at he4
          exact absurd he4 (List.not_mem_nil e)
        · rw [if_neg hq] at he4
          exact agentQualLoop_logs ctx.fieldMap ctx.amountField agentId _ _ e he4
    · exact creditSplitPhase_logs ctx agentId _ e he2

/-- Loop invariant for `agentLoop`: every `ruleHitLogs` binding carries a
non-empty log list whose entries are stamped with that binding's agent id. -/
theorem agentLoop_ruleHitLogs_inv (ctx : RunCtx) :
    ∀ (groups : List (String × List Record)) (st res : RunResult),
      agentLoop ctx groups st = .ok res →
      (∀ p ∈ st.ruleHitLogs, p.2 ≠ [] ∧ ∀ e ∈ p.2, e.agentId = p.1) →
      ∀ p ∈ res.ruleHitLogs, p.2 ≠ [] ∧ ∀ e ∈ p.2, e.agentId = p.1 := by
  intro groups
  induction groups with
  | nil =>
    intro st res h hinv
    unfold agentLoop at h
    rw [← Except.ok.inj h]
    exact hinv
  | cons g rest ih =>
    intro st res h hinv
    obtain ⟨agentId, records⟩ := g
    rw [agentLoop] at h
    by_cases hu : agentId = "UNKNOWN_AGENT"
    · rw [if_pos hu] at h
      exact ih st res h hinv
    · rw [if_neg hu] at h
      cases hp : processAgent ctx agentId records with
      | error e => rw [hp] at h; exact Except.noConfusion h
      | ok oc =>
        simp only [hp] at h
        refine ih _ res h ?_
        intro p hp2
        simp only [] at hp2
        rcases List.mem_append.mp hp2 with h1 | h2
        · exact hinv p h1
        · by_cases hl : oc.logs = []
          · rw [if_pos hl] at h2
            exact absurd h2 (List.not_mem_nil p)
          · rw [if_neg hl] at h2
            rw [List.mem_singleton.mp h2]
            exact ⟨hl, processAgent_logs ctx agentId records oc hp⟩

/-- Whatever is already bound in `ruleHitLogs` survives the rest of the
agent loop: each iteration only appends. -/
theorem agentLoop_ruleHitLogs_mono (ctx : RunCtx) :
    ∀ (groups : List (String × List Record)) (st res : RunResult),
      agentLoop ctx groups st = .ok res →
      ∀ p ∈ st.ruleHitLogs, p ∈ res.ruleHitLogs := by
  intro groups
  induction groups with
  | nil =>
    intro st res h p hp
    unfold agentLoop at h
    rw [← Except.ok.inj h]
    exact hp
  | cons g rest ih =>
    intro st res h p hp
    obtain ⟨gid, grecs⟩ := g
    rw [agentLoop] at h
    by_cases hgu : gid = "UNKNOWN_AGENT"
    · rw [if_pos hgu] at h
      exact ih st res h p hp
    · rw [if_neg hgu] at h
      cases hq : processAgent ctx gid grecs with
      | error e => rw [hq] at h; exact Except.noConfusion h
      | ok oc =>
        simp only [hq] at h
        exact ih _ res h p (List.mem_append_left _ hp)

/-- Completeness of `ruleHitLogs`: every agent iteration of the loop that
emitted at least one log entry appears as a binding of the final result
(the source appends `(agentId, agentRuleLogs)` whenever the collected logs
are non-empty, and later iterations never remove it). -/
theorem agentLoop_ruleHitLogs_complete (ctx : RunCtx) :
    ∀ (groups : List (String × List Record)) (st res : RunResult),
      agentLoop ctx groups st = .ok res →
      ∀ aid records oc, (aid, records) ∈ groups → aid ≠ "UNKNOWN_AGENT" →
        processAgent ctx aid records = .ok oc → oc.logs ≠ [] →
        (aid, oc.logs) ∈ res.ruleHitLogs := by
  intro groups
  induction groups with
  | nil =>
    intro st res h aid records oc hmem _ _ _
    exact absurd hmem (List.not_mem_nil _)
  | cons g rest ih =>
    intro st res h aid records oc hmem hu hp hne
    obtain ⟨gid, grecs⟩ := g
    rw [agentLoop] at h
    rcases List.mem_cons.mp hmem with heq | hmem2
    · have h1 : gid = aid := (Prod.mk.inj heq).1.symm
      have h2 : grecs = records := (Prod.mk.inj heq).2.symm
      rw [h1, h2] at h
      rw [if_neg hu] at h
      simp only [hp] at h
      refine agentLoop_ruleHitLogs_mono ctx rest _ res h (aid, oc.logs) ?_
      rw [if_neg hne]
      exact List.mem_append_right _ (List.mem_singleton.mpr rfl)
    · by_cases hgu : gid = "UNKNOWN_AGENT"
      · rw [if_pos hgu] at h
        exact ih st res h aid records oc hmem2 hu hp hne
      · rw [if_neg hgu] at h
        cases hq : processAgent ctx gid grecs with
        | error e => rw [hq] at h; exact Except.noConfusion h
        | ok oc0 =>
          simp only [hq] at h
          exact ih _ res h aid records oc hmem2 hu hp hne

/-- Provenance of `ruleHitLogs`: every binding of the final result either
was already in the incoming state or is exactly the log list emitted by
some agent iteration of the loop. -/
theorem agentLoop_ruleHitLogs_src (ctx : RunCtx) :
    ∀ (groups : List (String × List Record)) (st res : RunResult),
      agentLoop ctx groups st = .ok res →
      ∀ p ∈ res.ruleHitLogs,
        p ∈ st.ruleHitLogs ∨
        ∃ records oc, (p.1, records) ∈ groups ∧ p.1 ≠ "UNKNOWN_AGENT" ∧
          processAgent ctx p.1 records = .ok oc ∧ oc.logs = p.2 := by
  intro groups
  induction groups with
  | nil =>
    intro st res h p hp
    unfold agentLoop at h
    rw [← Except.ok.inj h] at hp
    exact Or.inl hp
  | cons g rest ih =>
    intro st res h p hp
    obtain ⟨gid, grecs⟩ := g
    rw [agentLoop] at h
    by_cases hgu : gid = "UNKNOWN_AGENT"
    · rw [if_pos hgu] at h
      rcases ih st res h p hp with hin | ⟨records, oc, hmem, hne, hq, hl⟩
      · exact Or.inl hin
      · exact Or.inr ⟨records, oc, List.mem_cons_of_mem _ hmem, hne, hq, hl⟩
    · rw [if_neg hgu] at h
      cases hq : processAgent ctx gid grecs with
      | error e => rw [hq] at h; exact Except.noConfusion h
      | ok oc0 =>
        simp only [hq] at h
        rcases ih _ res h p hp with hin | ⟨records, oc, hmem, hne, hq2, hl⟩
        · rcases List.mem_append.mp hin with h1 | h2
          · exact Or.inl h1
          · by_cases hl0 : oc0.logs = []
            · rw [if_pos hl0] at h2
              exact absurd h2 (List.not_mem_nil p)
            · rw [if_neg hl0] at h2
              have hpe : p = (gid, oc0.logs) := List.mem_singleton.mp h2
              refine Or.inr ⟨grecs, oc0, ?_, ?_, ?_, ?_⟩
              · rw [hpe]; exact List.mem_cons_self _ _
              · rw [hpe]; exact hgu
              · rw [hpe]; exact hq
              · rw [hpe]
        · exact Or.inr ⟨records, oc, List.mem_cons_of_mem _ hmem, hne, hq2, hl⟩

/-- C10: in every successful run, an agentId appears as a key of
`ruleHitLogs` *iff* at least one log entry was emitted for that agent: over
the run's own grouping of the selected records and its agent loop,
(1) every binding `(aid, logs)` has `logs ≠ []` with every entry stamped
with `aid` (no key is ever bound to an empty sequence), (2) every binding
is exactly the log list emitted by that agent's iteration, and (3) every
agent iteration that emitted at least one entry appears as a binding. -/
theorem c10_ruleHitLogs_iff (scheme : Scheme) (files : Files) (d : String)
    (res : RunResult) (s' : Scheme)
    (h : runScheme scheme files d = .ok (res, s')) :
    ∃ ctx baseData groups,
      groupByAgent ctx.agentIdField
        (selectRecords ctx.fieldMap ctx.baseDataFile ctx.transactionDateField
          ctx.schemeStart ctx.runDate ctx.qualificationRules baseData) [] = .ok groups ∧
      agentLoop ctx groups ⟨[], [], [], []⟩ = .ok res ∧
      (∀ aid logs, (aid, logs) ∈ res.ruleHitLogs →
        logs ≠ [] ∧ ∀ e ∈ logs, e.agentId = aid) ∧
      (∀ aid logs, (aid, logs) ∈ res.ruleHitLogs →
        ∃ records oc, (aid, records) ∈ groups ∧ aid ≠ "UNKNOWN_AGENT" ∧
          processAgent ctx aid records = .ok oc ∧ oc.logs = logs) ∧
      (∀ aid records oc, (aid, records) ∈ groups → aid ≠ "UNKNOWN_AGENT" →
        processAgent ctx aid records = .ok oc → oc.logs ≠ [] →
        (aid, oc.logs) ∈ res.ruleHitLogs) := by
  obtain ⟨-, ctx, baseData, hcore⟩ := runScheme_ok_inv scheme files d res s' h
  obtain ⟨groups, hgrp, hloop⟩ := runSchemeCore_ok ctx baseData res hcore
  refine ⟨ctx, baseData, groups, hgrp, hloop, ?_, ?_, ?_⟩
  · intro aid logs hmem
    exact agentLoop_ruleHitLogs_inv ctx groups ⟨[], [], [], []⟩ res hloop
      (fun p hp => absurd hp (List.not_mem_nil p)) (aid, logs) hmem
  · intro aid logs hmem
    rcases agentLoop_ruleHitLogs_src ctx groups ⟨[], [], [], []⟩ res hloop
        (aid, logs) hmem with hin | ⟨records, oc, h1, h2, h3, h4⟩
    · exact absurd hin (List.not_mem_nil _)
    · exact ⟨records, oc, h1, h2, h3, h4⟩
  · intro aid records oc hmem hu hp hne
    exact agentLoop_ruleHitLogs_complete ctx groups ⟨[], [], [], []⟩ res hloop
      aid records oc hmem hu hp hne

/-- Decidable equality for `Except`, needed to evaluate concrete runs. -/
instance {e a : Type} [DecidableEq e] [DecidableEq a] : DecidableEq (Except e a) := fun x y =>
  match x, y with
  | .error x1, .error y1 =>
    if h : x1 = y1 then .isTrue (by rw [h]) else .isFalse (fun hc => h (Except.error.inj hc))
  | .ok x1, .ok y1 =>
    if h : x1 = y1 then .isTrue (by rw [h]) else .isFalse (fun hc => h (Except.ok.inj hc))
  | .error _, .ok _ => .isFalse (fun hc => Except.noConfusion hc)
  | .ok _, .error _ => .isFalse (fun hc => Except.noConfusion hc)

/-- A minimal valid scheme configuration shared by the concrete run
scenarios. -/
def c7Scheme : Scheme :=
  { name := "S", effectiveFrom := "2024-12-01",
    baseMapping := some ⟨"base.csv", "Agent", "Amount", "Date"⟩,
    qualificationRules := [], exclusionRules := [], adjustmentRules := [],
    creditSplits := [], payoutTiers := some [], creditHierarchyFile := none,
    kpiFields := [] }

/-- Base dataset with a malformed amount on an otherwise selectable record. -/
def c7FilesBadAmount : Files :=
  [("base.csv",
    [[("Agent", .str "101"), ("Amount", .str "abc"), ("Date", .str "2024-12-05")]])]

/-- Base dataset with a selectable record that has no agent field. -/
def c7FilesNoAgent : Files :=
  [("base.csv", [[("Amount", .num 100), ("Date", .str "2024-12-05")]])]

/-- C7 (code bug): with a configuration that passes the fatal validation,
a single record with a malformed amount aborts the whole run (the uncaught
`new Decimal(...)` throw at source line 660), and a single record with a
missing agent id also aborts it (the `console.warn` template at source
line 628 references the undefined variable `_recordId`, raising a
`ReferenceError`) — `runScheme` returns no `RunResult` in either case,
contradicting the claim that such records degrade gracefully. -/
theorem c7_malformed_record_aborts :
    runScheme c7Scheme c7FilesBadAmount "2024-12-31" =
      .error "[DecimalError] Invalid argument" ∧
    runScheme c7Scheme c7FilesNoAgent "2024-12-31" =
      .error "ReferenceError: _recordId is not defined" := by
  decide

/-- Scheme with a falsy `payoutTiers`, for the C8 counterexample. -/
def c8Scheme : Scheme := { c7Scheme with payoutTiers := none }

/-- Uploaded files with an empty base dataset. -/
def c8Files : Files := [("base.csv", [])]

/-- C8 counterexample: a successful run over a scheme without `payoutTiers`
returns the scheme object with `payoutTiers` replaced by an empty array —
the scheme is *not* left unchanged (source line 457 assigns
`scheme.payoutTiers = []`). -/
theorem c8_counterexample :
    runScheme c8Scheme c8Files "2024-12-31" =
      .ok (⟨[], [], [], []⟩, { c8Scheme with payoutTiers := some [] }) ∧
    ({ c8Scheme with payoutTiers := some [] } : Scheme) ≠ c8Scheme := by
  decide

/-- C8 (amended): a successful run leaves the scheme unchanged *except*
that a missing/falsy `payoutTiers` is replaced by an empty array; in
particular, whenever `payoutTiers` is present the scheme is returned
exactly as given.  The hierarchy dataset (and every uploaded file) is never
written to anywhere in the pipeline. -/
theorem c8_scheme_frame (scheme : Scheme) (files : Files) (d : String)
    (res : RunResult) (s' : Scheme)
    (h : runScheme scheme files d = .ok (res, s')) :
    s' = normalizePayoutTiers scheme ∧
    (scheme.payoutTiers ≠ none → s' = scheme) := by
  have h1 := (runScheme_ok_inv scheme files d res s' h).1
  refine ⟨h1, fun hp => ?_⟩
  rw [h1]
  unfold normalizePayoutTiers
  cases hp2 : scheme.payoutTiers with
  | none => exact absurd hp2 hp
  | some ts => rfl

/-- C8 witness: a concrete successful run over a scheme with `payoutTiers`
present returns that scheme unchanged. -/
theorem c8_scheme_frame_witness :
    (c7Scheme = normalizePayoutTiers c7Scheme) ∧
    (c7Scheme.payoutTiers ≠ none → c7Scheme = c7Scheme) :=
  c8_scheme_frame c7Scheme c8Files "2024-12-31" ⟨[], [], [], []⟩ c7Scheme (by decide)

/-- Scheme with one exclusion rule, for the C10 witness run. -/
def c10Scheme : Scheme :=
  { c7Scheme with
    exclusionRules := [⟨"e1", "Payer", "=", .str "17100002"⟩],
    kpiFields := [⟨"Payer", "Payer", "String", "Per Record", "NotApplicable", "base.csv"⟩] }

/-- Record excluded by rule `e1` in the C10 witness run. -/
def c10Record : Record :=
  [("Agent", .str "102"), ("Amount", .num 90000), ("Date", .str "2024-12-05"),
   ("Payer", .str "17100002")]

/-- Base dataset of the C10 witness run. -/
def c10Files : Files := [("base.csv", [c10Record])]

/-- Expected result of the C10 witness run: agent `102` is excluded, gets
payout `"0.00"`, and its single `Exclusion` log entry appears under its
`ruleHitLogs` key. -/
def c10Result : RunResult :=
  { agentPayouts := [("102", "0.00")],
    ruleHitLogs := [("102", [⟨"Exclusion", "e1", "102"⟩])],
    creditDistributions := [],
    rawRecordLevelData :=
      [⟨c10Record, true, 90000, 1, 0, "0.00", [⟨"Exclusion", "e1", "102"⟩]⟩] }

set_option maxHeartbeats 2000000 in
/-- C10 witness: the concrete run binds key `"102"` exactly because its
iteration emitted a non-empty, correctly-stamped log list. -/
theorem c10_ruleHitLogs_iff_witness :
    ∃ ctx baseData groups,
      groupByAgent ctx.agentIdField
        (selectRecords ctx.fieldMap ctx.baseDataFile ctx.transactionDateField
          ctx.schemeStart ctx.runDate ctx.qualificationRules baseData) [] = .ok groups ∧
      agentLoop ctx groups ⟨[], [], [], []⟩ = .ok c10Result ∧
      (∀ aid logs, (aid, logs) ∈ c10Result.ruleHitLogs →
        logs ≠ [] ∧ ∀ e ∈ logs, e.agentId = aid) ∧
      (∀ aid logs, (aid, logs) ∈ c10Result.ruleHitLogs →
        ∃ records oc, (aid, records) ∈ groups ∧ aid ≠ "UNKNOWN_AGENT" ∧
          processAgent ctx aid records = .ok oc ∧ oc.logs = logs) ∧
      (∀ aid records oc, (aid, records) ∈ groups → aid ≠ "UNKNOWN_AGENT" →
        processAgent ctx aid records = .ok oc → oc.logs ≠ [] →
        (aid, oc.logs) ∈ c10Result.ruleHitLogs) :=
  c10_ruleHitLogs_iff c10Scheme c10Files "2024-12-31" c10Result c10Scheme
    (by norm_num +decide [runScheme, runSchemeCore, normalizePayoutTiers, lookupFile,
      buildFieldMap, buildFieldMapCore, withDefaultMappings, lookupField, selectRecords,
      recordInDateRange, parseDateValueCoerced, parseDate, digitVal, daysInMonth,
      isLeapYear, compareDates, isNullish, jsToString, passesRecordQualRule,
      isPerRecordBaseRule, groupByAgent, groupInsert, getFieldD, getField, jsTrim,
      isJsSpace, agentLoop, processAgent, processRecords, processRecord, jsDecimalOpt,
      parseDecimalString, parseUnsignedDecimal, spanDigits, allDigits, digitsVal,
      findFirstExclusion, exclusionRuleFires, evaluateCondition, jsToLower, lowerChar,
      creditStep, agentQualification, agentQualLoop, calculateMarginalTieredPayout,
      formatDecimal, roundHalfAwayFromZero, creditSplitPhase, splitLoop, Except.map,
      c10Scheme, c10Record, c10Files, c10Result, c7Scheme])
